import Mathlib

/-! MyVector: `RawMemory<T>` and `Vector<T>` of `vector.h`

A shallow embedding of the two class templates of `src/vector.h`.

* A buffer obtained from `operator new` is a list of slots, one per element
  the buffer can hold.  A slot is `none` while it is raw storage and `some a`
  while it holds a constructed object whose value is `a`.
* A pointer into a buffer is the offset from the start of the buffer; an
  iterator of a `Vector` is the (signed) offset from `begin()`.
* Each member function is a function from the object state (and the states of
  the other objects it mutates) to the new states; member functions guarded by
  an `assert` return `Option`, `none` standing for the failed assertion.
* The first part describes the calls in which no element operation and no
  allocation throws; the section on throwing element operations follows the
  same code through its exceptional paths.
* `size_t` values are natural numbers.  The `size_` elements of a `Vector` are
  objects in memory, so `size_ + 1` and `size_ * 2` do not wrap around.
* `RawMemory::Allocate(n)` requests `n * sizeof(T)` bytes, a product computed
  in `size_t`.  `Allocate_wrapping` describes it for every `n`, and
  `Reserve_wrapping` and `Resize_wrapping` are `Reserve` and `Resize` over it,
  for a capacity chosen by the caller.  `Allocate`, used by the other
  functions, describes the allocations whose product does not wrap, such as
  the ones for the size, or twice the size, of the elements a vector holds:
  there both descriptions agree.
-/

namespace MyVector

/-- Storage obtained from `operator new`: slot `k` is `none` while it is raw
memory and `some a` while it holds a constructed object of value `a`. -/
abbrev Buffer (α : Type) := List (Option α)

/-- The facts about the element type `T` that `vector.h` depends on. -/
structure ElemType (α : Type) where
  /-- the value of a value-initialised object (`T()`) -/
  value_init : α
  /-- the value a move construction or move assignment leaves in its source -/
  moved_from : α → α
  /-- Trait `std::is_nothrow_move_constructible_v<T>` -/
  nothrow_move_constructible : Bool
  /-- Trait `std::is_copy_constructible_v<T>` -/
  copy_constructible : Bool

/-! ## The standard algorithms used by `vector.h` -/

section Algorithms
variable {α : Type}

/-- Reading `*(buf + k)`. -/
def Buffer.read (buf : Buffer α) (k : Nat) : Option α := (buf[k]?).getD none

/-- Algorithm `std::uninitialized_value_construct_n(buf + first, n)`. -/
def uninitialized_value_construct_n (E : ElemType α) : Buffer α → Nat → Nat → Buffer α
  | buf, _, 0 => buf
  | buf, first, n + 1 =>
    uninitialized_value_construct_n E (buf.set first (some E.value_init)) (first + 1) n

/-- Algorithm `std::destroy_n(buf + first, n)`. -/
def destroy_n : Buffer α → Nat → Nat → Buffer α
  | buf, _, 0 => buf
  | buf, first, n + 1 => destroy_n (buf.set first none) (first + 1) n

/-- Algorithm `std::uninitialized_copy_n(src + first, n, dst + d_first)`: the source is
read only, the result is the destination buffer. -/
def uninitialized_copy_n (src : Buffer α) : Nat → Nat → Buffer α → Nat → Buffer α
  | _, 0, dst, _ => dst
  | first, n + 1, dst, d_first =>
    uninitialized_copy_n src (first + 1) n (dst.set d_first (src.read first)) (d_first + 1)

/-- Algorithm `std::copy_n(src + first, n, dst + d_first)` between two different
buffers: `n` copy assignments, front to back; the source is read only. -/
def copy_n (src : Buffer α) : Nat → Nat → Buffer α → Nat → Buffer α
  | _, 0, dst, _ => dst
  | first, n + 1, dst, d_first =>
    copy_n src (first + 1) n (dst.set d_first (src.read first)) (d_first + 1)

/-- Algorithm `std::uninitialized_move_n(src + first, n, dst + d_first)` between two
different buffers: returns the source buffer (its objects moved from) and the
destination buffer. -/
def uninitialized_move_n (E : ElemType α) :
    Buffer α → Nat → Nat → Buffer α → Nat → Buffer α × Buffer α
  | src, _, 0, dst, _ => (src, dst)
  | src, first, n + 1, dst, d_first =>
    uninitialized_move_n E (src.set first ((src.read first).map E.moved_from)) (first + 1) n
      (dst.set d_first (src.read first)) (d_first + 1)

/-- One move from slot `src` to slot `dst` of the same buffer, as performed by
`*(buf + dst) = std::move(*(buf + src))` and by
`new (buf + dst) T(std::move(*(buf + src)))`. -/
def move_within (E : ElemType α) (buf : Buffer α) (src dst : Nat) : Buffer α :=
  (buf.set dst (buf.read src)).set src ((buf.read src).map E.moved_from)

/-- Algorithm `std::uninitialized_move_n(buf + first, n, buf + d_first)` inside one buffer. -/
def uninitialized_move_n_within (E : ElemType α) : Buffer α → Nat → Nat → Nat → Buffer α
  | buf, _, 0, _ => buf
  | buf, first, n + 1, d_first =>
    uninitialized_move_n_within E (move_within E buf first d_first) (first + 1) n (d_first + 1)

/-- The loop of `std::move`: `n` move assignments, front to back. -/
def move_n (E : ElemType α) : Buffer α → Nat → Nat → Nat → Buffer α
  | buf, _, 0, _ => buf
  | buf, first, n + 1, d_first =>
    move_n E (move_within E buf first d_first) (first + 1) n (d_first + 1)

/-- Algorithm `std::move(buf + first, buf + last, buf + d_first)`. -/
def std_move (E : ElemType α) (buf : Buffer α) (first last d_first : Nat) : Buffer α :=
  move_n E buf first (last - first) d_first

/-- The loop of `std::move_backward`: `n` move assignments, back to front. -/
def move_backward_n (E : ElemType α) : Buffer α → Nat → Nat → Nat → Buffer α
  | buf, _, 0, _ => buf
  | buf, last, n + 1, d_last =>
    move_backward_n E (move_within E buf (last - 1) (d_last - 1)) (last - 1) n (d_last - 1)

/-- Algorithm `std::move_backward(buf + first, buf + last, buf + d_last)`. -/
def move_backward (E : ElemType α) (buf : Buffer α) (first last d_last : Nat) : Buffer α :=
  move_backward_n E buf last (last - first) d_last

end Algorithms

/-! ## `RawMemory<T>` -/

/-- The class `RawMemory<T>`: `buffer_` is the storage `buffer_` points to (the
empty list for `nullptr`), `capacity_` the recorded capacity. -/
structure RawMemory (α : Type) where
  buffer_ : Buffer α := []
  capacity_ : Nat := 0
deriving DecidableEq, Repr

namespace RawMemory
variable {α : Type}

/-- Member `RawMemory::Allocate(n)` for a request whose byte count
`n * sizeof(T)` does not wrap in `size_t`: raw storage of `n` slots, `nullptr`
for `n == 0`.  `Allocate_wrapping` describes the request for every `n`. -/
def Allocate (n : Nat) : Buffer α :=
  if n != 0 then List.replicate n none else []

/-- The request `RawMemory::Allocate(n)` makes to `operator new`, for a `size_t`
of `w` bits and `sizeof(T) = sizeof_T`: the product `n * sizeof(T)` computed in
`size_t`, that is modulo `2 ^ w`; `none` when `n == 0` and nothing is
requested. -/
def Allocate_bytes (w sizeof_T n : Nat) : Option Nat :=
  if n != 0 then some ((n * sizeof_T) % 2 ^ w) else none

/-- The number of whole element slots in the storage `RawMemory::Allocate(n)`
obtains. -/
def Allocate_slots (w sizeof_T n : Nat) : Nat :=
  match Allocate_bytes w sizeof_T n with
  | some bytes => bytes / sizeof_T
  | none => 0

/-- Member `RawMemory::Allocate(n)` for every `n`, with a `size_t` of `w` bits
and `sizeof(T) = sizeof_T`: `operator new` is asked for `n * sizeof(T)` bytes,
the product computed in `size_t`, and the storage has as many slots as these
bytes hold whole elements; `nullptr` for `n == 0`. -/
def Allocate_wrapping (w sizeof_T n : Nat) : Buffer α :=
  if n != 0 then List.replicate ((n * sizeof_T) % 2 ^ w / sizeof_T) none else []

/-- Constructor `RawMemory(size_t capacity)` for a capacity whose byte count
does not wrap. -/
def ofCapacity (capacity : Nat) : RawMemory α :=
  { buffer_ := Allocate capacity, capacity_ := capacity }

/-- Constructor `RawMemory(size_t capacity)` for every capacity: the storage of
`Allocate_wrapping`, and the capacity as given. -/
def ofCapacity_wrapping (w sizeof_T capacity : Nat) : RawMemory α :=
  { buffer_ := Allocate_wrapping w sizeof_T capacity, capacity_ := capacity }

/-- Member `RawMemory::Swap(other)`: the new states of `*this` and of `other`. -/
def Swap (self other : RawMemory α) : RawMemory α × RawMemory α :=
  ({ buffer_ := other.buffer_, capacity_ := other.capacity_ },
   { buffer_ := self.buffer_, capacity_ := self.capacity_ })

/-- Move constructor `RawMemory(RawMemory&& other)`: the members are default-initialised and
then swapped with `other`; returns the new object and the state of `other`. -/
def moveCtor (other : RawMemory α) : RawMemory α × RawMemory α :=
  Swap {} other

/-- Member `RawMemory::Capacity()`. -/
def Capacity (self : RawMemory α) : Nat := self.capacity_

/-- Member `RawMemory::operator[](index)`: the slot the returned reference designates,
`none` when `assert(index < capacity_)` fails. -/
def index (self : RawMemory α) (index : Nat) : Option Nat :=
  if index < self.capacity_ then some index else none

end RawMemory

/-! ## `Vector<T>` -/

/-- The class `Vector<T>`. -/
structure Vector (α : Type) where
  data_ : RawMemory α := {}
  size_ : Nat := 0
deriving DecidableEq, Repr

namespace Vector
variable {α : Type}

/-- Constructor `Vector(size_t size)`, for a size whose byte count does not wrap
in `size_t`. -/
def ofSize (E : ElemType α) (size : Nat) : Vector α :=
  let data_ : RawMemory α := RawMemory.ofCapacity size
  { data_ := { data_ with buffer_ := uninitialized_value_construct_n E data_.buffer_ 0 size },
    size_ := size }

/-- Constructor `Vector()`. -/
def defaultCtor : Vector α := {}

/-- Copy constructor `Vector(const Vector& other)`: the new object, and `other`,
which is `const` and keeps its state. -/
def copyCtor (other : Vector α) : Vector α × Vector α :=
  let data_ : RawMemory α := RawMemory.ofCapacity other.size_
  let buf := uninitialized_copy_n other.data_.buffer_ 0 other.size_ data_.buffer_ 0
  ({ data_ := { data_ with buffer_ := buf }, size_ := other.size_ }, other)

/-- Move constructor `Vector(Vector&& other)`: the new object and the state left in `other`. -/
def moveCtor (other : Vector α) : Vector α × Vector α :=
  let (data_, other_data) := RawMemory.moveCtor other.data_
  ({ data_ := data_, size_ := other.size_ }, { data_ := other_data, size_ := 0 })

/-- Member `Vector::Size()`. -/
def Size (self : Vector α) : Nat := self.size_

/-- Member `Vector::Capacity()`. -/
def Capacity (self : Vector α) : Nat := self.data_.Capacity

/-- Member `Vector::begin()` / `cbegin()`, as an offset from the start of the buffer. -/
def cbegin (_self : Vector α) : Int := 0

/-- Member `Vector::end()` / `cend()`. -/
def cend (self : Vector α) : Int := self.cbegin + (self.size_ : Int)

/-- Member `Vector::Swap(other)`: the new states of `*this` and of `other`. -/
def Swap (self other : Vector α) : Vector α × Vector α :=
  let (data_, other_data) := self.data_.Swap other.data_
  ({ data_ := data_, size_ := other.size_ }, { data_ := other_data, size_ := self.size_ })

/-- Move assignment `Vector::operator=(Vector&& rhs)`: the new states of `*this` and of `rhs`. -/
def moveAssign (self rhs : Vector α) : Vector α × Vector α :=
  self.Swap rhs

/-- Copy assignment `Vector::operator=(const Vector& rhs)`: the new state of
`*this`, and `rhs`, which is `const` and keeps its state.  `same_object` tells
whether `rhs` is `*this` itself (`this == &rhs`). -/
def copyAssign (self rhs : Vector α) (same_object : Bool) : Vector α × Vector α :=
  if !same_object then
    if rhs.size_ > self.data_.Capacity then
      let (rhs_copy, rhs) := copyCtor rhs
      let (self, _) := self.Swap rhs_copy
      (self, rhs)
    else
      let buf := copy_n rhs.data_.buffer_ 0
        (if self.size_ < rhs.size_ then self.size_ else rhs.size_) self.data_.buffer_ 0
      let buf :=
        if self.size_ < rhs.size_ then
          uninitialized_copy_n rhs.data_.buffer_ self.size_ (rhs.Size - self.size_) buf self.size_
        else if rhs.size_ < self.size_ then
          destroy_n buf rhs.size_ (self.size_ - rhs.size_)
        else buf
      ({ data_ := { self.data_ with buffer_ := buf }, size_ := rhs.Size }, rhs)
  else (self, rhs)

/-- Member `Vector::operator[](index)`: the slot the returned reference designates,
`none` when `assert(index < size_)` or the assertion of `data_[index]` fails. -/
def index (self : Vector α) (index : Nat) : Option Nat :=
  if index < self.size_ then self.data_.index index else none

/-- Member `Vector::MakeInitialized(from + first, where + d_first, number)` between the
buffers `src` and `dst`: returns both buffers. -/
def MakeInitialized (E : ElemType α) (src : Buffer α) (first : Nat) (dst : Buffer α)
    (d_first : Nat) (number : Nat) : Buffer α × Buffer α :=
  if E.nothrow_move_constructible || !E.copy_constructible then
    uninitialized_move_n E src first number dst d_first
  else
    (src, uninitialized_copy_n src first number dst d_first)

/-- Member `Vector::Reserve(new_capacity)` for a capacity whose byte count does
not wrap in `size_t`, as in the calls `Reserve(size_ == 0 ? 1 : size_ * 2)` of
`EmplaceBack` and `Emplace`; `Reserve_wrapping` describes it for every
capacity. -/
def Reserve (E : ElemType α) (self : Vector α) (new_capacity : Nat) : Vector α :=
  if new_capacity ≤ self.Capacity then
    self
  else
    let new_data : RawMemory α := RawMemory.ofCapacity new_capacity
    let (old_buf, new_buf) :=
      MakeInitialized E self.data_.buffer_ 0 new_data.buffer_ 0 self.size_
    let data_ : RawMemory α := { self.data_ with buffer_ := destroy_n old_buf 0 self.size_ }
    let new_data : RawMemory α := { new_data with buffer_ := new_buf }
    let (data_, _) := data_.Swap new_data
    { self with data_ := data_ }

/-- Member `Vector::Resize(new_size)` for a size whose byte count does not wrap
in `size_t`, as in the call `Resize(size_ - 1)` of `Erase`; `Resize_wrapping`
describes it for every size. -/
def Resize (E : ElemType α) (self : Vector α) (new_size : Nat) : Vector α :=
  if new_size < self.size_ then
    let buf := destroy_n self.data_.buffer_ new_size (self.size_ - new_size)
    { data_ := { self.data_ with buffer_ := buf }, size_ := new_size }
  else
    let self := if new_size > self.data_.Capacity then self.Reserve E new_size else self
    let buf :=
      uninitialized_value_construct_n E self.data_.buffer_ self.size_ (new_size - self.size_)
    { data_ := { self.data_ with buffer_ := buf }, size_ := new_size }

/-- Member `Vector::Reserve(new_capacity)` for every requested capacity, the new
storage being the one `RawMemory(new_capacity)` obtains with its request
computed in `size_t`.  A write past the end of the storage, which the source
performs when the storage is too small, leaves the buffer as it is. -/
def Reserve_wrapping (w sizeof_T : Nat) (E : ElemType α) (self : Vector α)
    (new_capacity : Nat) : Vector α :=
  if new_capacity ≤ self.Capacity then
    self
  else
    let new_data : RawMemory α := RawMemory.ofCapacity_wrapping w sizeof_T new_capacity
    let (old_buf, new_buf) :=
      MakeInitialized E self.data_.buffer_ 0 new_data.buffer_ 0 self.size_
    let data_ : RawMemory α := { self.data_ with buffer_ := destroy_n old_buf 0 self.size_ }
    let new_data : RawMemory α := { new_data with buffer_ := new_buf }
    let (data_, _) := data_.Swap new_data
    { self with data_ := data_ }

/-- Member `Vector::Resize(new_size)` for every requested size, over
`Reserve_wrapping`. -/
def Resize_wrapping (w sizeof_T : Nat) (E : ElemType α) (self : Vector α) (new_size : Nat) :
    Vector α :=
  if new_size < self.size_ then
    let buf := destroy_n self.data_.buffer_ new_size (self.size_ - new_size)
    { data_ := { self.data_ with buffer_ := buf }, size_ := new_size }
  else
    let self :=
      if new_size > self.data_.Capacity then self.Reserve_wrapping w sizeof_T E new_size
      else self
    let buf :=
      uninitialized_value_construct_n E self.data_.buffer_ self.size_ (new_size - self.size_)
    { data_ := { self.data_ with buffer_ := buf }, size_ := new_size }

/-- Member `Vector::EmplaceBack(args...)`, where `a` is the value of `T{args...}`:
the slot designated by the returned reference and the new state; `none` when
the assertion of `data_[size_ - 1]` fails. -/
def EmplaceBack (E : ElemType α) (self : Vector α) (a : α) : Option (Nat × Vector α) :=
  let self : Vector α :=
    if self.size_ + 1 > self.data_.Capacity then
      let nv : Vector α := ofSize E 0
      let nv := nv.Reserve E (if self.size_ == 0 then 1 else self.size_ * 2)
      let nv_buf := nv.data_.buffer_.set self.size_ (some a)
      let (old_buf, nv_buf) := MakeInitialized E self.data_.buffer_ 0 nv_buf 0 self.size_
      let nv : Vector α :=
        { data_ := { nv.data_ with buffer_ := nv_buf }, size_ := self.size_ + 1 }
      let self : Vector α := { self with data_ := { self.data_ with buffer_ := old_buf } }
      (self.Swap nv).1
    else
      { data_ := { self.data_ with buffer_ := self.data_.buffer_.set self.size_ (some a) },
        size_ := self.size_ + 1 }
  (self.data_.index (self.size_ - 1)).map fun r => (r, self)

/-- Member `Vector::PushBack(value)`. -/
def PushBack (E : ElemType α) (self : Vector α) (value : α) : Option (Vector α) :=
  (self.EmplaceBack E value).map Prod.snd

/-- Member `Vector::Emplace(pos, args...)`: the returned iterator and the new
state.  The source constructs the new element from `args...` in two ways:
with braces, `T{args...}`, in `EmplaceBack` (to which `pos == cend()`
delegates) and on the reallocation path, and with parentheses, `T(args...)`,
for the temporary `t` of the in-place path.  `braced` is the value of
`T{args...}` and `parenthesised` the value of `T(args...)`; a call evaluates
one of the two.  The differences `pos - begin()` and `cend() - pos` are
converted to `size_t`; they are not negative for a position in
`[begin(), end()]`. -/
def Emplace (E : ElemType α) (self : Vector α) (pos : Int) (braced parenthesised : α) :
    Option (Int × Vector α) :=
  if pos = self.cend then
    (self.EmplaceBack E braced).map fun r => (r.2.cend - 1, r.2)
  else
    let offset : Nat := (pos - self.cbegin).toNat
    let number : Nat := (self.cend - pos).toNat
    let self : Vector α :=
      if self.size_ + 1 > self.data_.Capacity then
        let nv : Vector α := ofSize E 0
        let nv := nv.Reserve E (if self.size_ == 0 then 1 else self.size_ * 2)
        let nv_buf := nv.data_.buffer_.set offset (some braced)
        let (old_buf, nv_buf) :=
          if pos ≠ self.cbegin then MakeInitialized E self.data_.buffer_ 0 nv_buf 0 offset
          else (self.data_.buffer_, nv_buf)
        let (old_buf, nv_buf) := MakeInitialized E old_buf offset nv_buf (offset + 1) number
        let nv : Vector α :=
          { data_ := { nv.data_ with buffer_ := nv_buf }, size_ := self.size_ + 1 }
        let self : Vector α := { self with data_ := { self.data_ with buffer_ := old_buf } }
        (self.Swap nv).1
      else
        let t : α := parenthesised
        let buf := uninitialized_move_n_within E self.data_.buffer_ (self.size_ - 1) 1 self.size_
        let buf := move_backward E buf offset (self.size_ - 1) self.size_
        let buf := buf.set offset (some t)
        { data_ := { self.data_ with buffer_ := buf }, size_ := self.size_ + 1 }
    some (self.cbegin + (offset : Int), self)

/-- Member `Vector::Insert(pos, value)` (both overloads): `Emplace(pos, value)`
with the single argument `value` of type `T`.  For an element type whose
list-initialisation from one `T` selects the copy or move constructor, as
`PushBack` assumes as well, `T{value}` and `T(value)` are both the copy of
`value`; `Emplace` itself covers the types for which they differ. -/
def Insert (E : ElemType α) (self : Vector α) (pos : Int) (value : α) :
    Option (Int × Vector α) :=
  self.Emplace E pos value value

/-- Member `Vector::PopBack()`: `none` when `assert(size_ > 0)` fails. -/
def PopBack (self : Vector α) : Option (Vector α) :=
  if self.size_ > 0 then
    some { data_ := { self.data_ with buffer_ := destroy_n self.data_.buffer_ (self.size_ - 1) 1 },
           size_ := self.size_ - 1 }
  else none

/-- Member `Vector::Erase(pos)`: the returned iterator and the new state; `none`
when the assertion of `PopBack` fails. -/
def Erase (E : ElemType α) (self : Vector α) (pos : Int) : Option (Int × Vector α) :=
  if pos = self.cend - 1 then
    self.PopBack.map fun self => (self.cend - 1, self)
  else
    let number : Nat := (pos - self.cbegin).toNat
    let buf := std_move E self.data_.buffer_ (number + 1) self.size_ number
    let self : Vector α := { self with data_ := { self.data_ with buffer_ := buf } }
    let self := self.Resize E (self.size_ - 1)
    some (self.cbegin + (number : Int), self)

/-- A run of successive `PushBack` calls, one per element of the list; `none`
when one of the calls fails an assertion. -/
def pushBackAll (E : ElemType α) : Vector α → List α → Option (Vector α)
  | self, [] => some self
  | self, a :: as =>
    match self.PushBack E a with
    | some self => pushBackAll E self as
    | none => none

/-- The logical contents: `self` holds the sequence `xs` when the buffer has
`capacity_` slots, `size_ ≤ capacity_`, and the slots `[0, size_)` are the
constructed objects `xs`, in order. -/
def Holds (self : Vector α) (xs : List α) : Prop :=
  self.data_.buffer_.length = self.data_.capacity_ ∧ self.size_ ≤ self.data_.capacity_ ∧
    self.size_ = xs.length ∧ self.data_.buffer_.take self.size_ = xs.map some

instance decidableHolds [DecidableEq α] (self : Vector α) (xs : List α) :
    Decidable (self.Holds xs) :=
  inferInstanceAs (Decidable
    (self.data_.buffer_.length = self.data_.capacity_ ∧ self.size_ ≤ self.data_.capacity_ ∧
      self.size_ = xs.length ∧ self.data_.buffer_.take self.size_ = xs.map some))

end Vector

/-! ## Element operations that can throw

The functions above describe the calls in which no element operation and no
allocation throws.  The functions of this section follow the same code through
the exceptional paths: every element operation is given the state `W` that the
operations of the element type can observe and change (a static counter of
constructor calls, say) and may throw; an exception leaves the function at
once, after the destructors of the local objects have run. -/

/-- How a call ends. -/
inductive Outcome (β : Type) where
  /-- the call returned `b` -/
  | returned (b : β)
  /-- an element operation or `operator new` threw, and the exception left the call -/
  | thrown
  /-- an `assert` failed -/
  | assert_failed
deriving DecidableEq, Repr

/-- An element type `T` whose operations can throw; an operation yielding
`none` (`false` for the allocation) has thrown. -/
structure ThrowingElem (α Args W : Type) where
  /-- the expression `T{args...}`: the value of the new object -/
  construct : Args → W → Option α × W
  /-- the copy constructor: the value of the new object -/
  copy_construct : α → W → Option α × W
  /-- the move constructor: the value of the new object and the value left in the source -/
  move_construct : α → W → Option (α × α) × W
  /-- the destructor -/
  destroy : α → W → W
  /-- whether `operator new(n * sizeof(T))` returns storage -/
  allocate : Nat → W → Bool × W
  /-- Trait `std::is_nothrow_move_constructible_v<T>` -/
  nothrow_move_constructible : Bool
  /-- Trait `std::is_copy_constructible_v<T>` -/
  copy_constructible : Bool

namespace Throwing
variable {α Args W : Type}

/-- Algorithm `std::destroy_n(buf + first, n)`, running the destructor of every object. -/
def destroy_n (T : ThrowingElem α Args W) : Buffer α → Nat → Nat → W → Buffer α × W
  | buf, _, 0, w => (buf, w)
  | buf, first, n + 1, w =>
    let w := match buf.read first with
      | some x => T.destroy x w
      | none => w
    destroy_n T (buf.set first none) (first + 1) n w

/-- The loop of `std::uninitialized_copy_n` with `cur` the current destination:
when a copy constructor throws, the objects constructed so far, in
`[d_first, cur)`, are destroyed (here front to back; the standard leaves the
order open) and the exception is passed on (`false`). -/
def uninitialized_copy_loop (T : ThrowingElem α Args W) (src : Buffer α) (d_first : Nat) :
    Nat → Nat → Buffer α → Nat → W → Bool × Buffer α × W
  | _, 0, dst, _, w => (true, dst, w)
  | first, n + 1, dst, cur, w =>
    match src.read first with
    | none => uninitialized_copy_loop T src d_first (first + 1) n (dst.set cur none) (cur + 1) w
    | some x =>
      match T.copy_construct x w with
      | (none, w) =>
        let (dst, w) := destroy_n T dst d_first (cur - d_first) w
        (false, dst, w)
      | (some y, w) =>
        uninitialized_copy_loop T src d_first (first + 1) n (dst.set cur (some y)) (cur + 1) w

/-- Algorithm `std::uninitialized_copy_n(src + first, n, dst + d_first)`: whether it
returned, the destination buffer and the state. -/
def uninitialized_copy_n (T : ThrowingElem α Args W) (src : Buffer α) (first n : Nat)
    (dst : Buffer α) (d_first : Nat) (w : W) : Bool × Buffer α × W :=
  uninitialized_copy_loop T src d_first first n dst d_first w

/-- The loop of `std::uninitialized_move_n` between two buffers. -/
def uninitialized_move_loop (T : ThrowingElem α Args W) (d_first : Nat) :
    Buffer α → Nat → Nat → Buffer α → Nat → W → Bool × Buffer α × Buffer α × W
  | src, _, 0, dst, _, w => (true, src, dst, w)
  | src, first, n + 1, dst, cur, w =>
    match src.read first with
    | none => uninitialized_move_loop T d_first src (first + 1) n (dst.set cur none) (cur + 1) w
    | some x =>
      match T.move_construct x w with
      | (none, w) =>
        let (dst, w) := destroy_n T dst d_first (cur - d_first) w
        (false, src, dst, w)
      | (some (y, x'), w) =>
        uninitialized_move_loop T d_first (src.set first (some x')) (first + 1) n
          (dst.set cur (some y)) (cur + 1) w

/-- Algorithm `std::uninitialized_move_n(src + first, n, dst + d_first)`: whether it
returned, both buffers and the state. -/
def uninitialized_move_n (T : ThrowingElem α Args W) (src : Buffer α) (first n : Nat)
    (dst : Buffer α) (d_first : Nat) (w : W) : Bool × Buffer α × Buffer α × W :=
  uninitialized_move_loop T d_first src first n dst d_first w

/-- Constructor `RawMemory(size_t capacity)`: `none` when `operator new` throws. -/
def RawMemory_ofCapacity (T : ThrowingElem α Args W) (capacity : Nat) (w : W) :
    Option (RawMemory α) × W :=
  if capacity != 0 then
    match T.allocate capacity w with
    | (true, w) => (some { buffer_ := List.replicate capacity none, capacity_ := capacity }, w)
    | (false, w) => (none, w)
  else (some { buffer_ := [], capacity_ := capacity }, w)

/-- Member `Vector::MakeInitialized(from + first, where + d_first, number)`. -/
def MakeInitialized (T : ThrowingElem α Args W) (src : Buffer α) (first : Nat) (dst : Buffer α)
    (d_first : Nat) (number : Nat) (w : W) : Bool × Buffer α × Buffer α × W :=
  if T.nothrow_move_constructible || !T.copy_constructible then
    uninitialized_move_n T src first number dst d_first w
  else
    match uninitialized_copy_n T src first number dst d_first w with
    | (ok, dst, w) => (ok, src, dst, w)

/-- Destructor `Vector::~Vector()`: destroys the live elements; the storage is released. -/
def dtor (T : ThrowingElem α Args W) (self : Vector α) (w : W) : W :=
  (destroy_n T self.data_.buffer_ 0 self.size_ w).2

/-- Member `Vector::Reserve(new_capacity)`: whether it returned, the state of `*this`
and the state of the element type. -/
def Reserve (T : ThrowingElem α Args W) (self : Vector α) (new_capacity : Nat) (w : W) :
    Bool × Vector α × W :=
  if new_capacity ≤ self.Capacity then
    (true, self, w)
  else
    match RawMemory_ofCapacity T new_capacity w with
    | (none, w) => (false, self, w)
    | (some new_data, w) =>
      match MakeInitialized T self.data_.buffer_ 0 new_data.buffer_ 0 self.size_ w with
      | (false, old_buf, _, w) =>
        (false, { self with data_ := { self.data_ with buffer_ := old_buf } }, w)
      | (true, old_buf, new_buf, w) =>
        let (old_buf, w) := destroy_n T old_buf 0 self.size_ w
        let data_ : RawMemory α := { self.data_ with buffer_ := old_buf }
        let new_data : RawMemory α := { new_data with buffer_ := new_buf }
        let (data_, _) := data_.Swap new_data
        (true, { self with data_ := data_ }, w)

/-- The `return data_[size_ - 1]` of `EmplaceBack`. -/
def return_last (self : Vector α) (w : W) : Outcome Nat × Vector α × W :=
  match self.data_.index (self.size_ - 1) with
  | some r => (Outcome.returned r, self, w)
  | none => (Outcome.assert_failed, self, w)

/-- Member `Vector::EmplaceBack(args...)`: how the call ends (with the slot designated
by the returned reference), the state of `*this` afterwards and the state of
the element type.  The local `nv` is destroyed on every way out. -/
def EmplaceBack (T : ThrowingElem α Args W) (self : Vector α) (args : Args) (w : W) :
    Outcome Nat × Vector α × W :=
  if self.size_ + 1 > self.data_.Capacity then
    -- `Vector<T> nv(0)` allocates nothing and constructs nothing
    let nv : Vector α := { data_ := RawMemory.ofCapacity 0, size_ := 0 }
    match Reserve T nv (if self.size_ == 0 then 1 else self.size_ * 2) w with
    | (false, nv, w) => (Outcome.thrown, self, dtor T nv w)
    | (true, nv, w) =>
      match T.construct args w with
      | (none, w) => (Outcome.thrown, self, dtor T nv w)
      | (some a, w) =>
        let nv_buf := nv.data_.buffer_.set self.size_ (some a)
        match MakeInitialized T self.data_.buffer_ 0 nv_buf 0 self.size_ w with
        | (false, old_buf, nv_buf, w) =>
          let nv : Vector α := { nv with data_ := { nv.data_ with buffer_ := nv_buf } }
          (Outcome.thrown, { self with data_ := { self.data_ with buffer_ := old_buf } },
            dtor T nv w)
        | (true, old_buf, nv_buf, w) =>
          let nv : Vector α :=
            { data_ := { nv.data_ with buffer_ := nv_buf }, size_ := self.size_ + 1 }
          let self : Vector α := { self with data_ := { self.data_ with buffer_ := old_buf } }
          let (self, nv) := self.Swap nv
          return_last self (dtor T nv w)
  else
    match T.construct args w with
    | (none, w) => (Outcome.thrown, self, w)
    | (some a, w) =>
      return_last
        { data_ := { self.data_ with buffer_ := self.data_.buffer_.set self.size_ (some a) },
          size_ := self.size_ + 1 } w

/-- A run of successive `EmplaceBack` calls, one per element of the list,
stopping at the first call that does not return: whether all calls returned,
the state of the vector and the state of the element type. -/
def emplaceBackAll (T : ThrowingElem α Args W) :
    Vector α → List Args → W → Bool × Vector α × W
  | self, [], w => (true, self, w)
  | self, args :: rest, w =>
    match EmplaceBack T self args w with
    | (Outcome.returned _, self, w) => emplaceBackAll T self rest w
    | (_, self, w) => (false, self, w)

/-- Copy constructor `Vector(const Vector& other)`: the new object, `none` when
the allocation or a copy constructor throws; the storage of the object under
construction is released then. -/
def copyCtor (T : ThrowingElem α Args W) (other : Vector α) (w : W) : Option (Vector α) × W :=
  match RawMemory_ofCapacity T other.size_ w with
  | (none, w) => (none, w)
  | (some data_, w) =>
    match uninitialized_copy_n T other.data_.buffer_ 0 other.size_ data_.buffer_ 0 w with
    | (false, _, w) => (none, w)
    | (true, buf, w) => (some { data_ := { data_ with buffer_ := buf }, size_ := other.size_ }, w)

end Throwing

/-- An element type that, besides the operations of `ThrowingElem`, has a copy
assignment that can throw. -/
structure ThrowingAssignElem (α Args W : Type) extends ThrowingElem α Args W where
  /-- the copy assignment `target = source`, given the values of the target and
  of the source: whether it returned, and the value the target is left with -/
  copy_assign : α → α → W → (Bool × α) × W

namespace Throwing
variable {α Args W : Type}

/-- Algorithm `std::copy_n(src + first, n, dst + d_first)` between two different
buffers: whether it returned, the destination buffer and the state. -/
def copy_n (T : ThrowingAssignElem α Args W) (src : Buffer α) :
    Nat → Nat → Buffer α → Nat → W → Bool × Buffer α × W
  | _, 0, dst, _, w => (true, dst, w)
  | first, n + 1, dst, d_first, w =>
    match src.read first, dst.read d_first with
    | some x, some y =>
      match T.copy_assign y x w with
      | ((true, y'), w) => copy_n T src (first + 1) n (dst.set d_first (some y')) (d_first + 1) w
      | ((false, y'), w) => (false, dst.set d_first (some y'), w)
    | _, _ => copy_n T src (first + 1) n (dst.set d_first (src.read first)) (d_first + 1) w

/-- Copy assignment `Vector::operator=(const Vector& rhs)`: how the call ends,
the state of `*this`, the state of `rhs` (which is `const`) and the state of
the element type.  `same_object` tells whether `rhs` is `*this` itself. -/
def copyAssign (T : ThrowingAssignElem α Args W) (self rhs : Vector α) (same_object : Bool)
    (w : W) : Outcome Unit × Vector α × Vector α × W :=
  if !same_object then
    if rhs.size_ > self.data_.Capacity then
      match copyCtor T.toThrowingElem rhs w with
      | (none, w) => (Outcome.thrown, self, rhs, w)
      | (some rhs_copy, w) =>
        let (self, rhs_copy) := self.Swap rhs_copy
        (Outcome.returned (), self, rhs, dtor T.toThrowingElem rhs_copy w)
    else
      match copy_n T rhs.data_.buffer_ 0
          (if self.size_ < rhs.size_ then self.size_ else rhs.size_) self.data_.buffer_ 0 w with
      | (false, buf, w) =>
        (Outcome.thrown, { self with data_ := { self.data_ with buffer_ := buf } }, rhs, w)
      | (true, buf, w) =>
        if self.size_ < rhs.size_ then
          match uninitialized_copy_n T.toThrowingElem rhs.data_.buffer_ self.size_
              (rhs.Size - self.size_) buf self.size_ w with
          | (false, buf, w) =>
            (Outcome.thrown, { self with data_ := { self.data_ with buffer_ := buf } }, rhs, w)
          | (true, buf, w) =>
            (Outcome.returned (),
              { data_ := { self.data_ with buffer_ := buf }, size_ := rhs.Size }, rhs, w)
        else if rhs.size_ < self.size_ then
          let (buf, w) := destroy_n T.toThrowingElem buf rhs.size_ (self.size_ - rhs.size_) w
          (Outcome.returned (),
            { data_ := { self.data_ with buffer_ := buf }, size_ := rhs.Size }, rhs, w)
        else
          (Outcome.returned (),
            { data_ := { self.data_ with buffer_ := buf }, size_ := rhs.Size }, rhs, w)
  else (Outcome.returned (), self, rhs, w)

end Throwing

/-! ## Example element types -/

/-- The element type `int`. -/
def intElem : ElemType Int :=
  { value_init := 0, moved_from := id, nothrow_move_constructible := true,
    copy_constructible := true }

/-- An element type that is relocated by copy and whose moved-from objects have
the value `0`. -/
def copyElem : ElemType Int :=
  { value_init := 0, moved_from := fun _ => 0, nothrow_move_constructible := false,
    copy_constructible := true }

/-- A `Vector<int>` holding `[1, 3]` in a buffer of capacity 3. -/
def vec_1_3 : Vector Int := ⟨⟨[some 1, some 3, none], 3⟩, 2⟩

/-- A `Vector<int>` holding `[0, 1, 3]` in a buffer of capacity 4. -/
def vec_0_1_3 : Vector Int := ⟨⟨[some 0, some 1, some 3, none], 4⟩, 3⟩

/-- A `Vector<int>` holding `[1, 2, 3]` in a buffer of capacity 4. -/
def vec_1_2_3 : Vector Int := ⟨⟨[some 1, some 2, some 3, none], 4⟩, 3⟩

/-- A full `Vector<int>`: `[1, 2, 3]` in a buffer of capacity 3. -/
def vec_full : Vector Int := ⟨⟨[some 1, some 2, some 3], 3⟩, 3⟩

/-- A `Vector<int>` holding the single element `7`, capacity 1. -/
def vec_7 : Vector Int := ⟨⟨[some 7], 1⟩, 1⟩

/-- An element type over `Int`, relocated by copy, whose state counts the
constructor calls (`T{args...}`, copy and move alike) and whose `limit`-th
constructor call throws. -/
def throwingElem (limit : Nat) : ThrowingElem Int Int Nat :=
  { construct := fun a n => (if n + 1 = limit then none else some a, n + 1)
    copy_construct := fun x n => (if n + 1 = limit then none else some x, n + 1)
    move_construct := fun x n => (if n + 1 = limit then none else some (x, 0), n + 1)
    destroy := fun _ n => n
    allocate := fun _ n => (true, n)
    nothrow_move_constructible := false
    copy_constructible := true }

/-- The element type `throwingElem limit` with a copy assignment that does not
throw. -/
def throwingAssignElem (limit : Nat) : ThrowingAssignElem Int Int Nat :=
  { throwingElem limit with copy_assign := fun _ x n => ((true, x), n) }

/-- An element type that never throws, behaves as `E` says, and counts in its
state the objects constructed by copy or by move, which are the relocated
elements; `T{args...}` is not counted. -/
def countingElem {α : Type} (E : ElemType α) : ThrowingElem α α Nat :=
  { construct := fun a n => (some a, n)
    copy_construct := fun x n => (some x, n + 1)
    move_construct := fun x n => (some (x, E.moved_from x), n + 1)
    destroy := fun _ n => n
    allocate := fun _ n => (true, n)
    nothrow_move_constructible := E.nothrow_move_constructible
    copy_constructible := E.copy_constructible }

/-- What the element type `loggingElem` records: the construction and the
destruction of an object, with the value of the object. -/
inductive Event where
  | constructed (x : Int)
  | destroyed (x : Int)
deriving DecidableEq, Repr

/-- The number of constructions in a log. -/
def constructions (log : List Event) : Nat :=
  (log.filter fun e => match e with
    | Event.constructed _ => true
    | Event.destroyed _ => false).length

/-- An element type over `Int`, relocated by copy, that logs every constructed
and every destroyed object and whose `limit`-th constructor call throws. -/
def loggingElem (limit : Nat) : ThrowingElem Int Int (List Event) :=
  { construct := fun a log =>
      if constructions log + 1 = limit then (none, log)
      else (some a, log ++ [Event.constructed a])
    copy_construct := fun x log =>
      if constructions log + 1 = limit then (none, log)
      else (some x, log ++ [Event.constructed x])
    move_construct := fun x log =>
      if constructions log + 1 = limit then (none, log)
      else (some (x, 0), log ++ [Event.constructed x])
    destroy := fun x log => log ++ [Event.destroyed x]
    allocate := fun _ log => (true, log)
    nothrow_move_constructible := false
    copy_constructible := true }


/-! ## Slot-wise description of the standard algorithms -/

section AlgorithmLemmas
variable {α : Type}

theorem read_eq_of_lt (buf : Buffer α) (j : Nat) (h : j < buf.length) :
    buf[j]? = some (buf.read j) := by
  simp [Buffer.read, List.getElem?_eq_getElem h]

theorem read_of_le (buf : Buffer α) (j : Nat) (h : buf.length ≤ j) : buf.read j = none := by
  simp [Buffer.read, List.getElem?_eq_none h]

theorem read_set (buf : Buffer α) (i j : Nat) (x : Option α) :
    Buffer.read (buf.set i x) j = if i = j ∧ j < buf.length then x else buf.read j := by
  unfold Buffer.read
  rw [List.getElem?_set]
  by_cases hij : i = j
  · subst hij
    by_cases hi : i < buf.length
    · simp [hi]
    · simp [hi, List.getElem?_eq_none (Nat.le_of_not_lt hi)]
  · simp [hij]

theorem length_uninitialized_value_construct_n (E : ElemType α) (buf : Buffer α)
    (first n : Nat) : (uninitialized_value_construct_n E buf first n).length = buf.length := by
  induction n generalizing buf first with
  | zero => rfl
  | succ n ih => simp [uninitialized_value_construct_n, ih]

theorem read_uninitialized_value_construct_n (E : ElemType α) (buf : Buffer α)
    (first n j : Nat) :
    (uninitialized_value_construct_n E buf first n).read j =
      if first ≤ j ∧ j < first + n ∧ j < buf.length then some E.value_init
      else buf.read j := by
  induction n generalizing buf first with
  | zero => rw [if_neg (by omega)]; rfl
  | succ n ih =>
    simp only [uninitialized_value_construct_n, ih, read_set, List.length_set]
    split_ifs <;> first | rfl | (exfalso; omega)

theorem length_destroy_n (buf : Buffer α) (first n : Nat) :
    (destroy_n buf first n).length = buf.length := by
  induction n generalizing buf first with
  | zero => rfl
  | succ n ih => simp [destroy_n, ih]

theorem read_destroy_n (buf : Buffer α) (first n j : Nat) :
    (destroy_n buf first n).read j =
      if first ≤ j ∧ j < first + n ∧ j < buf.length then none else buf.read j := by
  induction n generalizing buf first with
  | zero => rw [if_neg (by omega)]; rfl
  | succ n ih =>
    simp only [destroy_n, ih, read_set, List.length_set]
    split_ifs <;> first | rfl | (exfalso; omega)

theorem length_uninitialized_copy_n (src : Buffer α) (first n : Nat) (dst : Buffer α)
    (d_first : Nat) : (uninitialized_copy_n src first n dst d_first).length = dst.length := by
  induction n generalizing first dst d_first with
  | zero => rfl
  | succ n ih => simp [uninitialized_copy_n, ih]

theorem read_uninitialized_copy_n (src : Buffer α) (first n : Nat) (dst : Buffer α)
    (d_first j : Nat) :
    (uninitialized_copy_n src first n dst d_first).read j =
      if d_first ≤ j ∧ j < d_first + n ∧ j < dst.length then src.read (first + (j - d_first))
      else dst.read j := by
  induction n generalizing first dst d_first with
  | zero => rw [if_neg (by omega)]; rfl
  | succ n ih =>
    simp only [uninitialized_copy_n, ih, read_set, List.length_set]
    split_ifs with h1 h2 h3 h4 h5
    all_goals first
      | rfl
      | (exfalso; omega)
      | (congr 1; omega)

theorem uninitialized_copy_n_congr (src src' : Buffer α) (first n : Nat) (dst : Buffer α)
    (d_first : Nat) (h : ∀ k, first ≤ k → src.read k = src'.read k) :
    uninitialized_copy_n src first n dst d_first =
      uninitialized_copy_n src' first n dst d_first := by
  induction n generalizing first dst d_first with
  | zero => rfl
  | succ n ih =>
    simp only [uninitialized_copy_n]
    rw [h first (Nat.le_refl _)]
    exact ih (first + 1) _ _ (fun k hk => h k (by omega))

/-- Moving between two buffers fills the destination exactly as copying does. -/
theorem uninitialized_move_n_snd (E : ElemType α) (src : Buffer α) (first n : Nat)
    (dst : Buffer α) (d_first : Nat) :
    (uninitialized_move_n E src first n dst d_first).2 =
      uninitialized_copy_n src first n dst d_first := by
  induction n generalizing src first dst d_first with
  | zero => rfl
  | succ n ih =>
    simp only [uninitialized_move_n, uninitialized_copy_n, ih]
    apply uninitialized_copy_n_congr
    intro k hk
    rw [read_set, if_neg (by omega)]

theorem length_uninitialized_move_n_fst (E : ElemType α) (src : Buffer α) (first n : Nat)
    (dst : Buffer α) (d_first : Nat) :
    (uninitialized_move_n E src first n dst d_first).1.length = src.length := by
  induction n generalizing src first dst d_first with
  | zero => rfl
  | succ n ih => simp [uninitialized_move_n, ih]

theorem read_uninitialized_move_n_fst (E : ElemType α) (src : Buffer α) (first n : Nat)
    (dst : Buffer α) (d_first j : Nat) :
    (uninitialized_move_n E src first n dst d_first).1.read j =
      if first ≤ j ∧ j < first + n ∧ j < src.length then (src.read j).map E.moved_from
      else src.read j := by
  induction n generalizing src first dst d_first with
  | zero => rw [if_neg (by omega)]; rfl
  | succ n ih =>
    simp only [uninitialized_move_n, ih, read_set, List.length_set]
    split_ifs
    all_goals first
      | rfl
      | (exfalso; omega)
      | (congr 1; omega)
      | (congr 2; omega)

theorem length_move_within (E : ElemType α) (buf : Buffer α) (src dst : Nat) :
    (move_within E buf src dst).length = buf.length := by
  simp [move_within]

theorem read_move_within (E : ElemType α) (buf : Buffer α) (src dst j : Nat) :
    (move_within E buf src dst).read j =
      if src = j ∧ j < buf.length then (buf.read src).map E.moved_from
      else if dst = j ∧ j < buf.length then buf.read src
      else buf.read j := by
  simp only [move_within, read_set, List.length_set]

/-- Slot-wise effect of the `std::move` loop when the destination lies before
the source (a shift to the left). -/
theorem read_move_n (E : ElemType α) (buf : Buffer α) (first n d_first j : Nat)
    (h : d_first < first) :
    (move_n E buf first n d_first).read j =
      if d_first ≤ j ∧ j < d_first + n ∧ j < buf.length then buf.read (j + (first - d_first))
      else if first ≤ j ∧ j < first + n ∧ j < buf.length then (buf.read j).map E.moved_from
      else buf.read j := by
  induction n generalizing buf first d_first with
  | zero => rw [if_neg (by omega), if_neg (by omega)]; rfl
  | succ n ih =>
    simp only [move_n]
    rw [ih _ _ _ (by omega)]
    simp only [read_move_within, length_move_within]
    split_ifs
    all_goals first
      | rfl
      | (exfalso; omega)
      | (congr 1; omega)
      | (congr 2; omega)

theorem length_move_n (E : ElemType α) (buf : Buffer α) (first n d_first : Nat) :
    (move_n E buf first n d_first).length = buf.length := by
  induction n generalizing buf first d_first with
  | zero => rfl
  | succ n ih => simp [move_n, ih, length_move_within]

/-- Slot-wise effect of the `std::move_backward` loop when the destination lies
behind the source (a shift to the right). -/
theorem read_move_backward_n (E : ElemType α) (buf : Buffer α) (last n d_last j : Nat)
    (h : last < d_last) (hn : n ≤ last) :
    (move_backward_n E buf last n d_last).read j =
      if d_last - n ≤ j ∧ j < d_last ∧ j < buf.length then buf.read (j - (d_last - last))
      else if last - n ≤ j ∧ j < last ∧ j < buf.length then (buf.read j).map E.moved_from
      else buf.read j := by
  induction n generalizing buf last d_last with
  | zero => rw [if_neg (by omega), if_neg (by omega)]; rfl
  | succ n ih =>
    simp only [move_backward_n]
    rw [ih _ _ _ (by omega) (by omega)]
    simp only [read_move_within, length_move_within]
    split_ifs
    all_goals first
      | rfl
      | (exfalso; omega)
      | (congr 1; omega)
      | (congr 2; omega)

theorem length_move_backward_n (E : ElemType α) (buf : Buffer α) (last n d_last : Nat) :
    (move_backward_n E buf last n d_last).length = buf.length := by
  induction n generalizing buf last d_last with
  | zero => rfl
  | succ n ih => simp [move_backward_n, ih, length_move_within]

/-- The first `n` slots of a buffer are the constructed objects `xs` exactly
when reading slot `j < n` gives the `j`-th element of `xs`. -/
theorem take_eq_map_some_iff (buf : Buffer α) (xs : List α) (n : Nat)
    (hn : n ≤ buf.length) (hx : n = xs.length) :
    buf.take n = xs.map some ↔ ∀ j, j < n → buf.read j = xs[j]? := by
  constructor
  · intro h j hj
    have h1 : (buf.take n)[j]? = (xs.map some)[j]? := by rw [h]
    rw [List.getElem?_take, if_pos hj, read_eq_of_lt buf j (by omega), List.getElem?_map,
      List.getElem?_eq_getElem (by omega)] at h1
    rw [List.getElem?_eq_getElem (by omega)]
    simpa using h1
  · intro h
    apply List.ext_getElem?
    intro j
    rw [List.getElem?_take, List.getElem?_map]
    by_cases hj : j < n
    · rw [if_pos hj, read_eq_of_lt buf j (by omega), h j hj,
        List.getElem?_eq_getElem (by omega)]
      rfl
    · rw [if_neg hj, List.getElem?_eq_none (by omega)]
      rfl

/-- Looking up an element of `xs` with `a` inserted before position `i`. -/
theorem getElem?_insert_at (xs : List α) (a : α) (i j : Nat) (hi : i ≤ xs.length) :
    (xs.take i ++ a :: xs.drop i)[j]? =
      if j < i then xs[j]? else if j = i then some a else xs[j - 1]? := by
  have hl : (xs.take i).length = i := by simp [hi]
  by_cases h1 : j < i
  · rw [if_pos h1, List.getElem?_append_left (by omega), List.getElem?_take, if_pos h1]
  · rw [if_neg h1, List.getElem?_append_right (by omega), hl]
    by_cases h2 : j = i
    · subst h2; simp
    · rw [if_neg h2]
      obtain ⟨k, hk⟩ : ∃ k, j - i = k + 1 := ⟨j - i - 1, by omega⟩
      rw [hk, List.getElem?_cons_succ, List.getElem?_drop]
      congr 1; omega

/-- Looking up an element of `xs` with position `i` removed. -/
theorem getElem?_erase_at (xs : List α) (i j : Nat) (hi : i ≤ xs.length) :
    (xs.take i ++ xs.drop (i + 1))[j]? = if j < i then xs[j]? else xs[j + 1]? := by
  have hl : (xs.take i).length = i := by simp [hi]
  by_cases h1 : j < i
  · rw [if_pos h1, List.getElem?_append_left (by omega), List.getElem?_take, if_pos h1]
  · rw [if_neg h1, List.getElem?_append_right (by omega), hl, List.getElem?_drop]
    congr 1; omega

end AlgorithmLemmas

/-! ## Facts about the member functions -/

section VectorLemmas
variable {α : Type}

theorem Vector.Holds.read {v : Vector α} {xs : List α} (h : v.Holds xs) (j : Nat)
    (hj : j < v.size_) : v.data_.buffer_.read j = xs[j]? := by
  obtain ⟨h1, h2, h3, h4⟩ := h
  exact (take_eq_map_some_iff _ xs _ (by omega) h3).1 h4 j hj

theorem Vector.Holds.intro {v : Vector α} {xs : List α}
    (h1 : v.data_.buffer_.length = v.data_.capacity_) (h2 : v.size_ ≤ v.data_.capacity_)
    (h3 : v.size_ = xs.length) (h4 : ∀ j, j < v.size_ → v.data_.buffer_.read j = xs[j]?) :
    v.Holds xs :=
  ⟨h1, h2, h3, (take_eq_map_some_iff _ xs _ (by omega) h3).2 h4⟩

theorem Vector.MakeInitialized_snd (E : ElemType α) (src : Buffer α) (first : Nat)
    (dst : Buffer α) (d_first number : Nat) :
    (Vector.MakeInitialized E src first dst d_first number).2 =
      uninitialized_copy_n src first number dst d_first := by
  unfold Vector.MakeInitialized
  split
  · exact uninitialized_move_n_snd E src first number dst d_first
  · rfl

theorem Vector.length_MakeInitialized_fst (E : ElemType α) (src : Buffer α) (first : Nat)
    (dst : Buffer α) (d_first number : Nat) :
    (Vector.MakeInitialized E src first dst d_first number).1.length = src.length := by
  unfold Vector.MakeInitialized
  split
  · exact length_uninitialized_move_n_fst E src first number dst d_first
  · rfl

theorem Vector.read_MakeInitialized_fst (E : ElemType α) (src : Buffer α) (first : Nat)
    (dst : Buffer α) (d_first number j : Nat) (hj : first + number ≤ j) :
    (Vector.MakeInitialized E src first dst d_first number).1.read j = src.read j := by
  unfold Vector.MakeInitialized
  split
  · rw [read_uninitialized_move_n_fst, if_neg (by omega)]
  · rfl

theorem RawMemory.length_Allocate (n : Nat) : (RawMemory.Allocate n : Buffer α).length = n := by
  unfold RawMemory.Allocate
  by_cases h : n = 0 <;> simp [h]

theorem RawMemory.read_Allocate (n j : Nat) : (RawMemory.Allocate n : Buffer α).read j = none := by
  unfold RawMemory.Allocate Buffer.read
  by_cases h : n = 0
  · simp [h]
  · by_cases hj : j < n
    · simp [h, List.getElem?_replicate, hj]
    · simp [h, List.getElem?_replicate, hj]

/-- The fresh vector `nv` of the growth paths after `nv.Reserve(c)`. -/
theorem Vector.Reserve_ofSize_zero (E : ElemType α) (c : Nat) (hc : 0 < c) :
    (Vector.ofSize E 0).Reserve E c =
      { data_ := { buffer_ := RawMemory.Allocate c, capacity_ := c }, size_ := 0 } := by
  have h0 : (Vector.ofSize E 0 : Vector α) =
      { data_ := { buffer_ := [], capacity_ := 0 }, size_ := 0 } := rfl
  rw [h0]
  unfold Vector.Reserve
  rw [if_neg (by simp [Vector.Capacity, RawMemory.Capacity]; omega)]
  simp [Vector.MakeInitialized, uninitialized_move_n, uninitialized_copy_n, destroy_n,
    RawMemory.Swap, RawMemory.ofCapacity]

/-- The state `EmplaceBack` leaves behind, on either path. -/
theorem Vector.EmplaceBack_holds (E : ElemType α) (v : Vector α) (xs : List α) (a : α)
    (h : v.Holds xs) :
    ∃ v', v.EmplaceBack E a = some (xs.length, v') ∧ v'.Holds (xs ++ [a]) ∧
      v'.size_ = v.size_ + 1 ∧ v'.data_.buffer_.read xs.length = some a ∧
      v'.data_.capacity_ =
        if v.size_ + 1 > v.data_.capacity_ then max 1 (2 * v.data_.capacity_)
        else v.data_.capacity_ := by
  have hr := h.read
  obtain ⟨h1, h2, h3, -⟩ := h
  have hlast : (xs ++ [a])[v.size_]? = some a := by simp [h3]
  have hpre : ∀ j, j < xs.length → (xs ++ [a])[j]? = xs[j]? := fun j hj =>
    List.getElem?_append_left hj
  unfold Vector.EmplaceBack
  by_cases hcap : v.size_ + 1 > v.data_.Capacity
  · have hcap' : v.size_ + 1 > v.data_.capacity_ := hcap
    have hc : 0 < (if (v.size_ == 0) = true then 1 else v.size_ * 2) := by
      split
      · omega
      · rename_i h0
        simp at h0
        omega
    simp only [hcap, if_true, Vector.Reserve_ofSize_zero E _ hc, Vector.MakeInitialized_snd,
      Vector.Swap, RawMemory.Swap, RawMemory.index]
    have hc2 : (if (v.size_ == 0) = true then 1 else v.size_ * 2) =
        max 1 (2 * v.data_.capacity_) := by
      split
      · rename_i h0
        simp at h0
        omega
      · rename_i h0
        simp at h0
        omega
    generalize (if (v.size_ == 0) = true then 1 else v.size_ * 2) = c at hc hc2 ⊢
    have hc1 : v.size_ + 1 ≤ c := by omega
    rw [if_pos (by omega), ← h3]
    refine ⟨_, rfl, Vector.Holds.intro ?_ ?_ ?_ ?_, rfl, ?_, ?_⟩
    · simp [length_uninitialized_copy_n, RawMemory.length_Allocate]
    · exact hc1
    · simp [h3]
    · intro j hj
      simp only [read_uninitialized_copy_n, read_set, List.length_set,
        RawMemory.length_Allocate, RawMemory.read_Allocate] at hj ⊢
      by_cases hjs : j < v.size_
      · rw [if_pos (by omega), hpre j (by omega)]
        simpa using hr j hjs
      · have hje : j = v.size_ := by omega
        rw [if_neg (by omega), if_pos (by omega), hje, hlast]
    · simp only [read_uninitialized_copy_n, read_set, List.length_set,
        RawMemory.length_Allocate]
      rw [if_neg (by omega), if_pos ⟨trivial, by omega⟩]
    · rw [if_pos hcap', hc2]
  · have hcap' : ¬ v.size_ + 1 > v.data_.capacity_ := hcap
    simp only [hcap, if_false, RawMemory.index]
    rw [if_pos (by omega), ← h3]
    refine ⟨_, rfl, Vector.Holds.intro ?_ ?_ ?_ ?_, rfl, ?_, ?_⟩
    · simp [h1]
    · show v.size_ + 1 ≤ v.data_.capacity_
      omega
    · simp [h3]
    · intro j hj
      simp only [read_set] at hj ⊢
      by_cases hjs : j < v.size_
      · rw [if_neg (by omega), hpre j (by omega)]
        exact hr j hjs
      · have hje : j = v.size_ := by omega
        rw [if_pos (by omega), hje, hlast]
    · simp only [read_set]
      rw [if_pos ⟨trivial, by omega⟩]
    · rw [if_neg hcap']

theorem Vector.MakeInitialized_zero (E : ElemType α) (src : Buffer α) (first : Nat)
    (dst : Buffer α) (d_first : Nat) :
    Vector.MakeInitialized E src first dst d_first 0 = (src, dst) := by
  unfold Vector.MakeInitialized
  split <;> rfl

/-- The state `Emplace` leaves behind and the iterator it returns, on all
paths: the new element is the parenthesised value on the in-place path
(`i < size` and `size + 1 ≤ capacity`) and the braced value otherwise. -/
theorem Vector.Emplace_holds (E : ElemType α) (v : Vector α) (xs : List α) (i : Nat)
    (braced parenthesised : α) (h : v.Holds xs) (hi : i ≤ xs.length) :
    ∃ v', v.Emplace E (i : Int) braced parenthesised = some ((i : Int), v') ∧
      v'.Holds (xs.take i ++
        (if i < v.size_ ∧ v.size_ + 1 ≤ v.data_.capacity_ then parenthesised else braced) ::
          xs.drop i) ∧
      v'.size_ = v.size_ + 1 ∧
      v'.data_.capacity_ =
        if v.size_ + 1 > v.data_.capacity_ then max 1 (2 * v.data_.capacity_)
        else v.data_.capacity_ := by
  have hr := h.read
  have hh := h
  obtain ⟨h1, h2, h3, -⟩ := h
  unfold Vector.Emplace
  by_cases hend : i = xs.length
  · have hsel : (if i < v.size_ ∧ v.size_ + 1 ≤ v.data_.capacity_ then parenthesised
        else braced) = braced := if_neg (by omega)
    rw [hsel]
    obtain ⟨v', e1, e2, e3, -, e5⟩ := Vector.EmplaceBack_holds E v xs braced hh
    have hpos : ((i : Int) = v.cend) := by simp [Vector.cend, Vector.cbegin, h3, hend]
    rw [if_pos hpos, e1]
    refine ⟨v', ?_, ?_, e3, e5⟩
    · simp only [Option.map_some', Vector.cend, Vector.cbegin, e3, Option.some.injEq,
        Prod.mk.injEq, and_true]
      omega
    · rw [hend, List.take_length, List.drop_length]
      exact e2
  · have hpos : ¬ ((i : Int) = v.cend) := by
      simp only [Vector.cend, Vector.cbegin]
      omega
    have hoff : ((i : Int) - v.cbegin).toNat = i := by
      simp only [Vector.cbegin]
      omega
    have hnum : (v.cend - (i : Int)).toNat = v.size_ - i := by
      simp only [Vector.cend, Vector.cbegin]
      omega
    rw [if_neg hpos]
    simp only [hoff, hnum]
    by_cases hcap : v.size_ + 1 > v.data_.Capacity
    · have hcap' : v.size_ + 1 > v.data_.capacity_ := hcap
      have hsel : (if i < v.size_ ∧ v.size_ + 1 ≤ v.data_.capacity_ then parenthesised
          else braced) = braced := if_neg (by omega)
      rw [hsel]
      have hc : 0 < (if (v.size_ == 0) = true then 1 else v.size_ * 2) := by
        split
        · omega
        · rename_i h0
          simp at h0
          omega
      have hc2 : (if (v.size_ == 0) = true then 1 else v.size_ * 2) =
          max 1 (2 * v.data_.capacity_) := by
        split
        · rename_i h0
          simp at h0
          omega
        · rename_i h0
          simp at h0
          omega
      have hmi : ∀ B : Buffer α,
          (if (i : Int) ≠ v.cbegin then Vector.MakeInitialized E v.data_.buffer_ 0 B 0 i
            else (v.data_.buffer_, B)) = Vector.MakeInitialized E v.data_.buffer_ 0 B 0 i := by
        intro B
        by_cases h0 : i = 0
        · subst h0
          simp [Vector.MakeInitialized_zero, Vector.cbegin]
        · rw [if_pos]
          simp only [Vector.cbegin]
          omega
      simp only [hcap, if_true, Vector.Reserve_ofSize_zero E _ hc, hmi,
        Vector.MakeInitialized_snd, Vector.Swap, RawMemory.Swap]
      generalize (if (v.size_ == 0) = true then 1 else v.size_ * 2) = c at hc hc2 ⊢
      have hc1 : v.size_ + 1 ≤ c := by omega
      rw [uninitialized_copy_n_congr _ v.data_.buffer_ i _ _ _
        (fun k hk => Vector.read_MakeInitialized_fst E _ 0 _ 0 i k (by omega))]
      simp only [Vector.cbegin, zero_add]
      refine ⟨_, rfl, Vector.Holds.intro ?_ ?_ ?_ ?_, rfl, ?_⟩
      · simp [length_uninitialized_copy_n, RawMemory.length_Allocate]
      · exact hc1
      · simp [h3, hi]
        omega
      · intro j hj
        simp only [read_uninitialized_copy_n, read_set, List.length_set,
          length_uninitialized_copy_n, RawMemory.length_Allocate,
          RawMemory.read_Allocate] at hj ⊢
        rw [getElem?_insert_at xs braced i j hi]
        split_ifs
        all_goals first
          | rfl
          | (exfalso; omega)
          | (rw [← hr _ (by omega)]; first | done | (congr 1; omega))
      · rw [if_pos hcap', hc2]
    · have hcap' : ¬ v.size_ + 1 > v.data_.capacity_ := hcap
      have hsel : (if i < v.size_ ∧ v.size_ + 1 ≤ v.data_.capacity_ then parenthesised
          else braced) = parenthesised := if_pos (by omega)
      rw [hsel]
      simp only [hcap, if_false, uninitialized_move_n_within, move_backward]
      simp only [Vector.cbegin, zero_add]
      refine ⟨_, rfl, Vector.Holds.intro ?_ ?_ ?_ ?_, rfl, ?_⟩
      · simp [length_move_backward_n, length_move_within, h1]
      · show v.size_ + 1 ≤ v.data_.capacity_
        omega
      · simp [h3, hi]
        omega
      · intro j hj
        simp only [read_set, length_move_backward_n, length_move_within] at hj ⊢
        rw [read_move_backward_n E _ _ _ _ _ (by omega) (by omega)]
        simp only [read_move_within, length_move_within]
        rw [getElem?_insert_at xs parenthesised i j hi]
        split_ifs
        all_goals first
          | rfl
          | (exfalso; omega)
          | (rw [← hr _ (by omega)]; first | done | (congr 1; omega))
      · rw [if_neg hcap']

/-- The function `Reserve` keeps the contents and the size; the capacity becomes the larger
of the old capacity and the request. -/
theorem Vector.Reserve_holds (E : ElemType α) (v : Vector α) (xs : List α) (c : Nat)
    (h : v.Holds xs) :
    (v.Reserve E c).Holds xs ∧ (v.Reserve E c).size_ = v.size_ ∧
      (v.Reserve E c).data_.capacity_ = max v.data_.capacity_ c := by
  have hr := h.read
  have hh := h
  obtain ⟨h1, h2, h3, -⟩ := h
  unfold Vector.Reserve
  by_cases hc : c ≤ v.Capacity
  · have hc' : c ≤ v.data_.capacity_ := hc
    rw [if_pos hc]
    exact ⟨hh, rfl, by omega⟩
  · have hc' : ¬ c ≤ v.data_.capacity_ := hc
    rw [if_neg hc]
    simp only [Vector.MakeInitialized_snd, RawMemory.Swap, RawMemory.ofCapacity]
    refine ⟨Vector.Holds.intro ?_ ?_ h3 ?_, trivial, ?_⟩
    · simp [length_uninitialized_copy_n, RawMemory.length_Allocate]
    · show v.size_ ≤ c
      omega
    · intro j hj
      simp only [read_uninitialized_copy_n, RawMemory.length_Allocate] at hj ⊢
      rw [if_pos (by omega), ← hr j hj]
      congr 1
      omega
    · show c = max v.data_.capacity_ c
      omega

/-- The function `Resize` truncates to the first `n` elements or appends value-initialised
elements up to size `n`. -/
theorem Vector.Resize_holds (E : ElemType α) (v : Vector α) (xs : List α) (n : Nat)
    (h : v.Holds xs) :
    (v.Resize E n).Holds
        (if n < v.size_ then xs.take n else xs ++ List.replicate (n - v.size_) E.value_init) ∧
      (v.Resize E n).size_ = n ∧
      (v.Resize E n).data_.capacity_ =
        if n < v.size_ then v.data_.capacity_ else max v.data_.capacity_ n := by
  have hr := h.read
  have hh := h
  obtain ⟨h1, h2, h3, -⟩ := h
  unfold Vector.Resize
  by_cases hn : n < v.size_
  · simp only [hn, if_true]
    refine ⟨Vector.Holds.intro ?_ ?_ ?_ ?_, trivial, trivial⟩
    · simp [length_destroy_n, h1]
    · show n ≤ v.data_.capacity_
      omega
    · simp
      omega
    · intro j hj
      simp only [read_destroy_n] at hj ⊢
      rw [if_neg (by omega), List.getElem?_take, if_pos hj]
      exact hr j (by omega)
  · simp only [hn, if_false]
    obtain ⟨r1, r2, r3⟩ := Vector.Reserve_holds E v xs n hh
    have hw : ∀ w : Vector α, w.Holds xs → w.size_ = v.size_ → n ≤ w.data_.capacity_ →
        ({ data_ := { w.data_ with
              buffer_ := uninitialized_value_construct_n E w.data_.buffer_ w.size_ (n - w.size_) },
            size_ := n } : Vector α).Holds (xs ++ List.replicate (n - v.size_) E.value_init) := by
      intro w hw hs hcw
      have hwr := hw.read
      obtain ⟨w1, w2, w3, -⟩ := hw
      refine Vector.Holds.intro ?_ hcw ?_ ?_
      · simp [length_uninitialized_value_construct_n, w1]
      · simp
        omega
      · intro j hj
        simp only [read_uninitialized_value_construct_n] at hj ⊢
        by_cases hjs : j < w.size_
        · rw [if_neg (by omega), List.getElem?_append_left (by omega)]
          exact hwr j hjs
        · rw [if_pos (by omega), List.getElem?_append_right (by omega),
            List.getElem?_replicate, if_pos (by omega)]
    by_cases hc : n > v.data_.Capacity
    · have hc' : n > v.data_.capacity_ := hc
      simp only [hc, if_true]
      exact ⟨hw _ r1 r2 (by omega), trivial, by rw [r3]⟩
    · have hc' : ¬ n > v.data_.capacity_ := hc
      simp only [hc, if_false]
      exact ⟨hw _ hh rfl (by omega), trivial, by show v.data_.capacity_ = _; omega⟩

/-- The state `Erase` leaves behind and the iterator it returns, on both paths. -/
theorem Vector.Erase_holds (E : ElemType α) (v : Vector α) (xs : List α) (i : Nat)
    (h : v.Holds xs) (hi : i < xs.length) :
    ∃ v', v.Erase E (i : Int) =
        some ((if i + 1 = xs.length then (i : Int) - 1 else (i : Int)), v') ∧
      v'.Holds (xs.take i ++ xs.drop (i + 1)) ∧ v'.size_ + 1 = v.size_ ∧
      v'.data_.capacity_ = v.data_.capacity_ := by
  have hr := h.read
  obtain ⟨h1, h2, h3, -⟩ := h
  have hlen : (xs.take i ++ xs.drop (i + 1)).length = xs.length - 1 := by
    simp
    omega
  unfold Vector.Erase
  by_cases hlast : i + 1 = xs.length
  · have hpos : (i : Int) = v.cend - 1 := by
      simp only [Vector.cend, Vector.cbegin]
      omega
    rw [if_pos hpos, if_pos hlast]
    unfold Vector.PopBack
    rw [if_pos (by omega)]
    simp only [Option.map_some', Vector.cend, Vector.cbegin, zero_add]
    have hsz : ((v.size_ - 1 : Nat) : Int) = (i : Int) := by omega
    rw [hsz]
    refine ⟨_, rfl, Vector.Holds.intro ?_ ?_ ?_ ?_, ?_, rfl⟩
    · simp [length_destroy_n, h1]
    · show v.size_ - 1 ≤ v.data_.capacity_
      omega
    · show v.size_ - 1 = _
      omega
    · intro j hj
      simp only [read_destroy_n] at hj ⊢
      rw [if_neg (by omega), getElem?_erase_at xs i j (by omega), if_pos (by omega)]
      exact hr j (by omega)
    · show v.size_ - 1 + 1 = v.size_
      omega
  · have hpos : ¬ (i : Int) = v.cend - 1 := by
      simp only [Vector.cend, Vector.cbegin]
      omega
    have hnum : ((i : Int) - v.cbegin).toNat = i := by
      simp only [Vector.cbegin]
      omega
    rw [if_neg hpos, if_neg hlast]
    simp only [hnum, Vector.Resize, std_move, Vector.cbegin, zero_add]
    rw [if_pos (by omega)]
    refine ⟨_, rfl, Vector.Holds.intro ?_ ?_ ?_ ?_, ?_, rfl⟩
    · simp [length_destroy_n, length_move_n, h1]
    · show v.size_ - 1 ≤ v.data_.capacity_
      omega
    · show v.size_ - 1 = _
      omega
    · intro j hj
      simp only [read_destroy_n, length_move_n] at hj ⊢
      rw [if_neg (by omega), read_move_n E _ _ _ _ _ (by omega),
        getElem?_erase_at xs i j (by omega)]
      split_ifs
      all_goals first
        | rfl
        | (exfalso; omega)
        | (rw [← hr _ (by omega)]; first | done | (congr 1; omega))
    · show v.size_ - 1 + 1 = v.size_
      omega

end VectorLemmas

/-! ## Agreement of the two descriptions

When no element operation and no allocation throws, the functions of the
section on throwing operations compute what the plain functions compute. -/

section Agreement
variable {α Args W : Type}

theorem set_none_of_read_eq_none (buf : Buffer α) (k : Nat) (h : buf.read k = none) :
    buf.set k none = buf := by
  apply List.ext_getElem?
  intro j
  rw [List.getElem?_set]
  by_cases hkj : k = j
  · subst hkj
    by_cases hk : k < buf.length
    · rw [if_pos rfl, if_pos hk, read_eq_of_lt buf k hk, h]
    · rw [if_pos rfl, if_neg hk, List.getElem?_eq_none (Nat.le_of_not_lt hk)]
  · rw [if_neg hkj]

theorem Throwing.destroy_n_fst (T : ThrowingElem α Args W) (buf : Buffer α) (first n : Nat)
    (w : W) : (Throwing.destroy_n T buf first n w).1 = MyVector.destroy_n buf first n := by
  induction n generalizing buf first w with
  | zero => rfl
  | succ n ih => simp only [Throwing.destroy_n, MyVector.destroy_n, ih]

theorem Throwing.uninitialized_copy_loop_nothrow (T : ThrowingElem α Args W)
    (hcopy : ∀ x w, (T.copy_construct x w).1 = some x) (src : Buffer α) (d_first first n : Nat)
    (dst : Buffer α) (cur : Nat) (w : W) :
    (Throwing.uninitialized_copy_loop T src d_first first n dst cur w).1 = true ∧
      (Throwing.uninitialized_copy_loop T src d_first first n dst cur w).2.1 =
        MyVector.uninitialized_copy_n src first n dst cur := by
  induction n generalizing first dst cur w with
  | zero => exact ⟨rfl, rfl⟩
  | succ n ih =>
    unfold Throwing.uninitialized_copy_loop MyVector.uninitialized_copy_n
    rcases hs : src.read first with _ | x
    · exact ih _ _ _ _
    · simp only []
      have hc := hcopy x w
      rcases hcw : T.copy_construct x w with ⟨_ | y, w1⟩
      · rw [hcw] at hc
        exact absurd hc (by simp)
      · rw [hcw] at hc
        simp only [Option.some.injEq] at hc
        subst hc
        exact ih _ _ _ _

theorem Throwing.uninitialized_move_loop_nothrow (T : ThrowingElem α Args W) (E : ElemType α)
    (hmove : ∀ x w, (T.move_construct x w).1 = some (x, E.moved_from x)) (d_first : Nat)
    (src : Buffer α) (first n : Nat) (dst : Buffer α) (cur : Nat) (w : W) :
    (Throwing.uninitialized_move_loop T d_first src first n dst cur w).1 = true ∧
      (Throwing.uninitialized_move_loop T d_first src first n dst cur w).2.1 =
        (MyVector.uninitialized_move_n E src first n dst cur).1 ∧
      (Throwing.uninitialized_move_loop T d_first src first n dst cur w).2.2.1 =
        (MyVector.uninitialized_move_n E src first n dst cur).2 := by
  induction n generalizing src first dst cur w with
  | zero => exact ⟨rfl, rfl, rfl⟩
  | succ n ih =>
    unfold Throwing.uninitialized_move_loop MyVector.uninitialized_move_n
    rcases hs : src.read first with _ | x
    · simp only [Option.map_none']
      rw [set_none_of_read_eq_none src first hs]
      exact ih _ _ _ _ _
    · simp only [Option.map_some']
      have hm := hmove x w
      rcases hmw : T.move_construct x w with ⟨_ | ⟨y, x'⟩, w1⟩
      · rw [hmw] at hm
        exact absurd hm (by simp)
      · rw [hmw] at hm
        simp only [Option.some.injEq, Prod.mk.injEq] at hm
        obtain ⟨rfl, rfl⟩ := hm
        exact ih _ _ _ _ _

theorem Throwing.MakeInitialized_nothrow (T : ThrowingElem α Args W) (E : ElemType α)
    (h1 : T.nothrow_move_constructible = E.nothrow_move_constructible)
    (h2 : T.copy_constructible = E.copy_constructible)
    (hcopy : ∀ x w, (T.copy_construct x w).1 = some x)
    (hmove : ∀ x w, (T.move_construct x w).1 = some (x, E.moved_from x))
    (src : Buffer α) (first : Nat) (dst : Buffer α) (d_first number : Nat) (w : W) :
    (Throwing.MakeInitialized T src first dst d_first number w).1 = true ∧
      (Throwing.MakeInitialized T src first dst d_first number w).2.1 =
        (Vector.MakeInitialized E src first dst d_first number).1 ∧
      (Throwing.MakeInitialized T src first dst d_first number w).2.2.1 =
        (Vector.MakeInitialized E src first dst d_first number).2 := by
  unfold Throwing.MakeInitialized Vector.MakeInitialized
  rw [h1, h2]
  split
  · exact Throwing.uninitialized_move_loop_nothrow T E hmove _ _ _ _ _ _ _
  · obtain ⟨c1, c2⟩ :=
      Throwing.uninitialized_copy_loop_nothrow T hcopy src d_first first number dst d_first w
    exact ⟨c1, rfl, c2⟩

theorem Throwing.Reserve_nothrow (T : ThrowingElem α Args W) (E : ElemType α)
    (h1 : T.nothrow_move_constructible = E.nothrow_move_constructible)
    (h2 : T.copy_constructible = E.copy_constructible)
    (hcopy : ∀ x w, (T.copy_construct x w).1 = some x)
    (hmove : ∀ x w, (T.move_construct x w).1 = some (x, E.moved_from x))
    (halloc : ∀ n w, (T.allocate n w).1 = true) (v : Vector α) (c : Nat) (w : W) :
    (Throwing.Reserve T v c w).1 = true ∧ (Throwing.Reserve T v c w).2.1 = v.Reserve E c := by
  unfold Throwing.Reserve Vector.Reserve
  by_cases hc : c ≤ v.Capacity
  · rw [if_pos hc, if_pos hc]
    exact ⟨rfl, rfl⟩
  · rw [if_neg hc, if_neg hc]
    have hc0 : c ≠ 0 := by
      intro h0
      exact hc (by rw [h0]; exact Nat.zero_le _)
    have ha := halloc c w
    rcases haw : T.allocate c w with ⟨_ | _, w1⟩
    · rw [haw] at ha
      exact absurd ha (by simp)
    · have hnew : Throwing.RawMemory_ofCapacity T c w =
          (some (RawMemory.ofCapacity c), w1) := by
        simp [Throwing.RawMemory_ofCapacity, RawMemory.ofCapacity, RawMemory.Allocate, hc0, haw]
      rw [hnew]
      simp only []
      obtain ⟨m1, m2, m3⟩ := Throwing.MakeInitialized_nothrow T E h1 h2 hcopy hmove
        v.data_.buffer_ 0 (RawMemory.ofCapacity c).buffer_ 0 v.size_ w1
      rcases hM : Throwing.MakeInitialized T v.data_.buffer_ 0 (RawMemory.ofCapacity c).buffer_ 0
          v.size_ w1 with ⟨ok, old_buf, new_buf, w2⟩
      rw [hM] at m1 m2 m3
      simp only [] at m1 m2 m3
      subst m1 m2 m3
      simp only [RawMemory.Swap, Throwing.destroy_n_fst, true_and]

/-- When nothing throws, the `EmplaceBack` of the section on throwing element
operations returns what the plain `EmplaceBack` returns, in the same state. -/
theorem Throwing.EmplaceBack_nothrow (T : ThrowingElem α Args W) (E : ElemType α)
    (h1 : T.nothrow_move_constructible = E.nothrow_move_constructible)
    (h2 : T.copy_constructible = E.copy_constructible)
    (hcopy : ∀ x w, (T.copy_construct x w).1 = some x)
    (hmove : ∀ x w, (T.move_construct x w).1 = some (x, E.moved_from x))
    (halloc : ∀ n w, (T.allocate n w).1 = true) (v : Vector α) (args : Args) (a : α)
    (hctor : ∀ w, (T.construct args w).1 = some a) (w : W) (r : Nat) (v' : Vector α)
    (hplain : v.EmplaceBack E a = some (r, v')) :
    (Throwing.EmplaceBack T v args w).1 = Outcome.returned r ∧
      (Throwing.EmplaceBack T v args w).2.1 = v' := by
  have hret : ∀ (u : Vector α) (w : W),
      (u.data_.index (u.size_ - 1)).map (fun r => (r, u)) = some (r, v') →
      (Throwing.return_last u w).1 = Outcome.returned r ∧
        (Throwing.return_last u w).2.1 = v' := by
    intro u w hu
    unfold Throwing.return_last
    rcases hi : u.data_.index (u.size_ - 1) with _ | k
    · rw [hi] at hu
      exact absurd hu (by simp)
    · rw [hi] at hu
      simp only [Option.map_some', Option.some.injEq, Prod.mk.injEq] at hu
      obtain ⟨rfl, rfl⟩ := hu
      exact ⟨rfl, rfl⟩
  revert hplain
  unfold Throwing.EmplaceBack Vector.EmplaceBack
  by_cases hg : v.size_ + 1 > v.data_.Capacity
  · simp only [hg, if_true]
    generalize (if (v.size_ == 0) = true then 1 else v.size_ * 2) = c
    obtain ⟨r1, r2⟩ := Throwing.Reserve_nothrow T E h1 h2 hcopy hmove halloc
      { data_ := RawMemory.ofCapacity 0, size_ := 0 } c w
    have hnv : (Vector.ofSize E 0 : Vector α) = { data_ := RawMemory.ofCapacity 0, size_ := 0 } :=
      rfl
    rw [hnv]
    rcases hR : Throwing.Reserve T { data_ := RawMemory.ofCapacity 0, size_ := 0 } c w with
      ⟨ok, nv, w1⟩
    rw [hR] at r1 r2
    simp only [] at r1 r2
    subst r1 r2
    simp only []
    have hc := hctor w1
    rcases hC : T.construct args w1 with ⟨_ | b, w2⟩
    · rw [hC] at hc
      exact absurd hc (by simp)
    · rw [hC] at hc
      simp only [Option.some.injEq] at hc
      subst hc
      simp only []
      generalize (Vector.Reserve E { data_ := RawMemory.ofCapacity 0, size_ := 0 } c) = nv
      obtain ⟨m1, m2, m3⟩ := Throwing.MakeInitialized_nothrow T E h1 h2 hcopy hmove
        v.data_.buffer_ 0 (List.set nv.data_.buffer_ v.size_ (some b)) 0 v.size_ w2
      rcases hM : Throwing.MakeInitialized T v.data_.buffer_ 0
          (List.set nv.data_.buffer_ v.size_ (some b)) 0 v.size_ w2 with
        ⟨ok, old_buf, new_buf, w3⟩
      rw [hM] at m1 m2 m3
      simp only [] at m1 m2 m3
      subst m1 m2 m3
      simp only [Vector.Swap, RawMemory.Swap]
      exact hret _ _
  · simp only [hg, if_false]
    have hc := hctor w
    rcases hC : T.construct args w with ⟨_ | b, w2⟩
    · rw [hC] at hc
      exact absurd hc (by simp)
    · rw [hC] at hc
      simp only [Option.some.injEq] at hc
      subst hc
      exact hret _ _

end Agreement

/-! ## Insertion and erasure at a position -/

section Claims
variable {α : Type}

/-- Claim C2: for a vector holding a sequence `xs` and an index `i < size`,
`Erase` at position `i` succeeds and leaves the vector holding
`xs[0..i) ++ xs[i+1..size)`: the size decreases by exactly one, the element at
`i` is removed and the others keep their order, both on the `PopBack` path
(last index) and on the shift-left path. -/
theorem Vector.Erase_removes_at (E : ElemType α) (v : Vector α) (xs : List α) (i : Nat)
    (h : v.Holds xs) (hi : i < xs.length) :
    ∃ r v', v.Erase E (i : Int) = some (r, v') ∧
      v'.Holds (xs.take i ++ xs.drop (i + 1)) ∧ v'.Holds (xs.eraseIdx i) ∧
      v'.Size + 1 = v.Size := by
  obtain ⟨v', e1, e2, e3, -⟩ := Vector.Erase_holds E v xs i h hi
  refine ⟨_, v', e1, e2, ?_, e3⟩
  rw [List.eraseIdx_eq_take_drop_succ]
  exact e2

/-- Erasing position 1 of `[1, 2, 3]`. -/
theorem Vector.Erase_removes_at_witness :
    vec_1_2_3.Holds [1, 2, 3] ∧ 1 < [1, 2, 3].length ∧
      ∃ r v', vec_1_2_3.Erase intElem ((1 : Nat) : Int) = some (r, v') ∧
        v'.Holds ([1, 2, 3].take 1 ++ [1, 2, 3].drop (1 + 1)) ∧
        v'.Holds ([1, 2, 3].eraseIdx 1) ∧ v'.Size + 1 = vec_1_2_3.Size :=
  ⟨by decide, by decide,
    Vector.Erase_removes_at intElem vec_1_2_3 [1, 2, 3] 1 (by decide) (by decide)⟩

/-- Claim C3, evaluated on the code: erasing the last element of `[1, 2, 3]`
(position 2) leaves `[1, 2]` and returns position 1, the slot of the element
`2`, not position 2 (the new end); erasing the only element of `[7]` returns
position `-1`, one slot before `begin()`. -/
theorem Vector.Erase_last_returns_before_end :
    vec_full.Erase intElem 2 = some (1, ⟨⟨[some 1, some 2, none], 3⟩, 2⟩) ∧
      vec_7.Erase intElem 0 = some (-1, ⟨⟨[none], 1⟩, 0⟩) := by
  constructor <;> rfl

/-! ## Appending and capacity growth -/

/-- Claim C5: for a vector that holds a sequence (hence `size ≤ capacity`),
after `EmplaceBack`/`PushBack` and after `Emplace`/`Insert` at a position
`i ≤ size` the capacity is `max(1, 2 * old capacity)` when
`size + 1 > capacity` and the old capacity otherwise, whatever element the
arguments of `Emplace` construct with braces (`a`) and with parentheses
(`b`). -/
theorem Vector.capacity_after_insertion (E : ElemType α) (v : Vector α) (xs : List α)
    (i : Nat) (a b : α) (h : v.Holds xs) (hi : i ≤ xs.length) :
    (∃ r v', v.EmplaceBack E a = some (r, v') ∧ v.PushBack E a = some v' ∧
        v'.Capacity = if v.Size + 1 > v.Capacity then max 1 (2 * v.Capacity) else v.Capacity) ∧
      (∃ r v', v.Emplace E (i : Int) a a = some (r, v') ∧
        v.Insert E (i : Int) a = some (r, v') ∧
        v'.Capacity =
          if v.Size + 1 > v.Capacity then max 1 (2 * v.Capacity) else v.Capacity) ∧
      ∃ r v', v.Emplace E (i : Int) a b = some (r, v') ∧
        v'.Capacity = if v.Size + 1 > v.Capacity then max 1 (2 * v.Capacity) else v.Capacity := by
  obtain ⟨v', e1, -, -, -, e5⟩ := Vector.EmplaceBack_holds E v xs a h
  obtain ⟨w', f1, -, -, f4⟩ := Vector.Emplace_holds E v xs i a a h hi
  obtain ⟨u', g1, -, -, g4⟩ := Vector.Emplace_holds E v xs i a b h hi
  exact ⟨⟨_, v', e1, by simp [Vector.PushBack, e1], e5⟩, ⟨_, w', f1, f1, f4⟩, ⟨_, u', g1, g4⟩⟩

/-- The capacity after appending to, and inserting into, the full vector
`[1, 2, 3]`. -/
theorem Vector.capacity_after_insertion_witness :
    vec_full.Holds [1, 2, 3] ∧ 1 ≤ [1, 2, 3].length ∧
      (∃ r v', vec_full.EmplaceBack intElem 4 = some (r, v') ∧
        vec_full.PushBack intElem 4 = some v' ∧
        v'.Capacity =
          if vec_full.Size + 1 > vec_full.Capacity then max 1 (2 * vec_full.Capacity)
          else vec_full.Capacity) ∧
      (∃ r v', vec_full.Emplace intElem ((1 : Nat) : Int) 4 4 = some (r, v') ∧
        vec_full.Insert intElem ((1 : Nat) : Int) 4 = some (r, v') ∧
        v'.Capacity =
          if vec_full.Size + 1 > vec_full.Capacity then max 1 (2 * vec_full.Capacity)
          else vec_full.Capacity) ∧
      ∃ r v', vec_full.Emplace intElem ((1 : Nat) : Int) 4 5 = some (r, v') ∧
        v'.Capacity =
          if vec_full.Size + 1 > vec_full.Capacity then max 1 (2 * vec_full.Capacity)
          else vec_full.Capacity :=
  ⟨by decide, by decide,
    Vector.capacity_after_insertion intElem vec_full [1, 2, 3] 1 4 5 (by decide) (by decide)⟩

/-! ## `Reserve` and `Resize` -/

theorem RawMemory.length_Allocate_wrapping (w sizeof_T n : Nat) :
    (RawMemory.Allocate_wrapping w sizeof_T n : Buffer α).length =
      RawMemory.Allocate_slots w sizeof_T n := by
  unfold RawMemory.Allocate_wrapping RawMemory.Allocate_slots RawMemory.Allocate_bytes
  by_cases h : n = 0 <;> simp [h]

/-- When the product `n * sizeof(T)` does not wrap, the storage has `n` slots:
the two descriptions of `Allocate` agree. -/
theorem RawMemory.Allocate_wrapping_eq (w sizeof_T n : Nat) (hs : 0 < sizeof_T)
    (hfit : n * sizeof_T < 2 ^ w) :
    (RawMemory.Allocate_wrapping w sizeof_T n : Buffer α) = RawMemory.Allocate n := by
  unfold RawMemory.Allocate_wrapping RawMemory.Allocate
  rw [Nat.mod_eq_of_lt hfit, Nat.mul_div_cancel n hs]

theorem Vector.Reserve_wrapping_eq (w sizeof_T : Nat) (E : ElemType α) (v : Vector α) (c : Nat)
    (hs : 0 < sizeof_T) (hfit : c * sizeof_T < 2 ^ w) :
    v.Reserve_wrapping w sizeof_T E c = v.Reserve E c := by
  unfold Vector.Reserve_wrapping Vector.Reserve RawMemory.ofCapacity_wrapping RawMemory.ofCapacity
  rw [RawMemory.Allocate_wrapping_eq w sizeof_T c hs hfit]

theorem Vector.Resize_wrapping_eq (w sizeof_T : Nat) (E : ElemType α) (v : Vector α) (n : Nat)
    (hs : 0 < sizeof_T) (hfit : n * sizeof_T < 2 ^ w) :
    v.Resize_wrapping w sizeof_T E n = v.Resize E n := by
  unfold Vector.Resize_wrapping Vector.Resize
  rw [Vector.Reserve_wrapping_eq w sizeof_T E v n hs hfit]

/-- For a request that does not wrap, `Reserve(c)` keeps the contents and the
size, sets the capacity to `max(old capacity, c)` and, for `c ≤ capacity`,
leaves the whole state as it was. -/
theorem Vector.Reserve_wrapping_preserves (w sizeof_T : Nat) (E : ElemType α) (v : Vector α)
    (xs : List α) (c : Nat) (hs : 0 < sizeof_T) (hfit : c * sizeof_T < 2 ^ w)
    (h : v.Holds xs) :
    (v.Reserve_wrapping w sizeof_T E c).Holds xs ∧
      (v.Reserve_wrapping w sizeof_T E c).Size = v.Size ∧
      (v.Reserve_wrapping w sizeof_T E c).Capacity = max v.Capacity c ∧
      (c ≤ v.Capacity → v.Reserve_wrapping w sizeof_T E c = v) := by
  refine ⟨?_, ?_, ?_, ?_⟩
  · rw [Vector.Reserve_wrapping_eq w sizeof_T E v c hs hfit]
    exact (Vector.Reserve_holds E v xs c h).1
  · rw [Vector.Reserve_wrapping_eq w sizeof_T E v c hs hfit]
    exact (Vector.Reserve_holds E v xs c h).2.1
  · rw [Vector.Reserve_wrapping_eq w sizeof_T E v c hs hfit]
    exact (Vector.Reserve_holds E v xs c h).2.2
  · intro hc
    unfold Vector.Reserve_wrapping
    rw [if_pos hc]

/-- For a request that does not wrap, `Resize(n)` truncates to the first `n`
elements or appends value-initialised elements up to size `n`. -/
theorem Vector.Resize_wrapping_spec (w sizeof_T : Nat) (E : ElemType α) (v : Vector α)
    (xs : List α) (n : Nat) (hs : 0 < sizeof_T) (hfit : n * sizeof_T < 2 ^ w)
    (h : v.Holds xs) :
    (v.Resize_wrapping w sizeof_T E n).Holds
        (if n < v.size_ then xs.take n else xs ++ List.replicate (n - v.size_) E.value_init) ∧
      (v.Resize_wrapping w sizeof_T E n).size_ = n ∧
      (v.Resize_wrapping w sizeof_T E n).data_.capacity_ =
        if n < v.size_ then v.data_.capacity_ else max v.data_.capacity_ n := by
  rw [Vector.Resize_wrapping_eq w sizeof_T E v n hs hfit]
  exact Vector.Resize_holds E v xs n h

/-- When `Reserve` has to grow, the buffer it leaves has the slots of the
storage obtained, whatever the recorded capacity. -/
theorem Vector.Reserve_wrapping_grow (w sizeof_T : Nat) (E : ElemType α) (v : Vector α)
    (c : Nat) (hc : ¬ c ≤ v.Capacity) :
    (v.Reserve_wrapping w sizeof_T E c).data_.buffer_.length =
        RawMemory.Allocate_slots w sizeof_T c ∧
      (v.Reserve_wrapping w sizeof_T E c).data_.capacity_ = c ∧
      (v.Reserve_wrapping w sizeof_T E c).size_ = v.size_ := by
  unfold Vector.Reserve_wrapping
  rw [if_neg hc]
  simp only [Vector.MakeInitialized_snd, RawMemory.Swap, RawMemory.ofCapacity_wrapping,
    length_uninitialized_copy_n, RawMemory.length_Allocate_wrapping, and_self]

/-- When `Resize` has to grow the storage, the buffer it leaves has the slots
of the storage obtained, while size and capacity are the requested size. -/
theorem Vector.Resize_wrapping_grow (w sizeof_T : Nat) (E : ElemType α) (v : Vector α)
    (n : Nat) (hn : ¬ n < v.size_) (hc : n > v.data_.Capacity) :
    (v.Resize_wrapping w sizeof_T E n).data_.buffer_.length =
        RawMemory.Allocate_slots w sizeof_T n ∧
      (v.Resize_wrapping w sizeof_T E n).data_.capacity_ = n ∧
      (v.Resize_wrapping w sizeof_T E n).size_ = n := by
  have hc' : ¬ n ≤ v.Capacity := Nat.not_le.mpr hc
  obtain ⟨g1, g2, -⟩ := Vector.Reserve_wrapping_grow w sizeof_T E v n hc'
  unfold Vector.Resize_wrapping
  simp only [hn, hc, if_true, if_false, length_uninitialized_value_construct_n, g1, g2,
    and_self]

/-- Claim C6, evaluated on the code: with a 64-bit `size_t` and 8-byte
elements, `Reserve(2 ^ 61 + 1)` on a vector holding `[1, 2, 3]` requests
`(2 ^ 61 + 1) * 8 mod 2 ^ 64 = 8` bytes, storage for one element, and records
the capacity `2 ^ 61 + 1`: the three elements do not fit (the source writes the
second and the third past the end of the storage), and the vector no longer
holds `[1, 2, 3]`. -/
theorem Vector.Reserve_wrapping_undersized :
    vec_1_2_3.Holds [1, 2, 3] ∧ RawMemory.Allocate_bytes 64 8 (2 ^ 61 + 1) = some 8 ∧
      vec_1_2_3.Reserve_wrapping 64 8 intElem (2 ^ 61 + 1) = ⟨⟨[some 1], 2 ^ 61 + 1⟩, 3⟩ ∧
      (vec_1_2_3.Reserve_wrapping 64 8 intElem (2 ^ 61 + 1)).data_.buffer_.length <
        (vec_1_2_3.Reserve_wrapping 64 8 intElem (2 ^ 61 + 1)).Size ∧
      ¬ (vec_1_2_3.Reserve_wrapping 64 8 intElem (2 ^ 61 + 1)).Holds [1, 2, 3] := by
  have e : vec_1_2_3.Reserve_wrapping 64 8 intElem (2 ^ 61 + 1) =
      ⟨⟨[some 1], 2 ^ 61 + 1⟩, 3⟩ := by decide
  refine ⟨by decide, by decide, e, ?_, ?_⟩
  · rw [e]
    decide
  · rw [e]
    decide

/-- Claim C7, evaluated on the code: with a 64-bit `size_t` and 8-byte
elements, `Resize(2 ^ 61)` on a vector holding `[0, 1, 3]` reserves with a
request of `2 ^ 61 * 8 mod 2 ^ 64 = 0` bytes, so the storage has no slot while
size and capacity become `2 ^ 61`: the vector holds no sequence at all, let
alone `[0, 1, 3]` followed by value-initialised elements. -/
theorem Vector.Resize_wrapping_undersized :
    vec_0_1_3.Holds [0, 1, 3] ∧ RawMemory.Allocate_bytes 64 8 (2 ^ 61) = some 0 ∧
      (vec_0_1_3.Resize_wrapping 64 8 intElem (2 ^ 61)).Size = 2 ^ 61 ∧
      (vec_0_1_3.Resize_wrapping 64 8 intElem (2 ^ 61)).Capacity = 2 ^ 61 ∧
      (vec_0_1_3.Resize_wrapping 64 8 intElem (2 ^ 61)).data_.buffer_.length = 0 ∧
      ∀ ys, ¬ (vec_0_1_3.Resize_wrapping 64 8 intElem (2 ^ 61)).Holds ys := by
  obtain ⟨g1, g2, g3⟩ := Vector.Resize_wrapping_grow 64 8 intElem vec_0_1_3 (2 ^ 61)
    (by decide) (by decide)
  have hslots : RawMemory.Allocate_slots 64 8 (2 ^ 61) = 0 := by decide
  rw [hslots] at g1
  refine ⟨by decide, by decide, g3, g2, g1, ?_⟩
  intro ys hys
  have hlen := hys.1
  rw [g1, g2] at hlen
  exact absurd hlen (by decide)

/-! ## Move construction and move assignment -/

/-- Claim C9: move-constructing `d` from `s` gives `d` the buffer (hence the
element sequence), the size and the capacity `s` had, and leaves `s` with a
null buffer, size 0 and capacity 0. -/
theorem Vector.moveCtor_spec (s : Vector α) :
    (Vector.moveCtor s).1.data_.buffer_ = s.data_.buffer_ ∧
      (Vector.moveCtor s).1.Size = s.Size ∧ (Vector.moveCtor s).1.Capacity = s.Capacity ∧
      (∀ xs, s.Holds xs ↔ (Vector.moveCtor s).1.Holds xs) ∧
      (Vector.moveCtor s).2.data_.buffer_ = [] ∧ (Vector.moveCtor s).2.Size = 0 ∧
      (Vector.moveCtor s).2.Capacity = 0 ∧ (Vector.moveCtor s).2.Holds [] := by
  refine ⟨rfl, rfl, rfl, fun xs => Iff.rfl, rfl, rfl, rfl, ?_⟩
  exact ⟨rfl, Nat.le_refl 0, rfl, rfl⟩

/-- Claim C10 as stated fails: move-assigning a vector holding `[1, 3]` to a
vector holding `[7]` leaves the source with size 1, not 0. -/
theorem Vector.moveAssign_source_not_empty :
    ¬ ((vec_7.moveAssign vec_1_3).2.Size = 0 ∧ (vec_7.moveAssign vec_1_3).1.Holds [1, 3]) := by
  intro h
  exact absurd h.1 (by decide)

/-- Claim C10, amended: after the move assignment `d = std::move(s)` the
destination holds precisely the sequence `s` held, and the source has the size
`d` had before, so the source has size 0 exactly when `d` was empty. -/
theorem Vector.moveAssign_spec (d s : Vector α) (xs : List α) (h : s.Holds xs) :
    (d.moveAssign s).1.Holds xs ∧ (d.moveAssign s).1.Size = s.Size ∧
      (d.moveAssign s).2.Size = d.Size ∧ ((d.moveAssign s).2.Size = 0 ↔ d.Size = 0) :=
  ⟨h, rfl, rfl, Iff.rfl⟩

/-- Move-assigning a vector holding `[1, 3]` to a vector holding `[7]`. -/
theorem Vector.moveAssign_spec_witness :
    vec_1_3.Holds [1, 3] ∧
      (vec_7.moveAssign vec_1_3).1.Holds [1, 3] ∧
      (vec_7.moveAssign vec_1_3).1.Size = vec_1_3.Size ∧
      (vec_7.moveAssign vec_1_3).2.Size = vec_7.Size ∧
      ((vec_7.moveAssign vec_1_3).2.Size = 0 ↔ vec_7.Size = 0) :=
  ⟨by decide,
    Vector.moveAssign_spec vec_7 vec_1_3 [1, 3] (by decide)⟩

/-! ## Exception safety of the growth path -/

/-- With an element type relocated by copy, `MakeInitialized` leaves the source
buffer as it was, whether it returns or throws. -/
theorem Throwing.MakeInitialized_source {Args W : Type} (T : ThrowingElem α Args W)
    (hmove : T.nothrow_move_constructible = false) (hcopy : T.copy_constructible = true)
    (src : Buffer α) (first : Nat) (dst : Buffer α) (d_first number : Nat) (w : W) :
    (Throwing.MakeInitialized T src first dst d_first number w).2.1 = src := by
  unfold Throwing.MakeInitialized
  simp [hmove, hcopy]

theorem Throwing.return_last_ne_thrown {W : Type} (v : Vector α) (w : W) :
    (Throwing.return_last v w).1 ≠ Outcome.thrown := by
  unfold Throwing.return_last
  split <;> simp

/-- Claim C8: when the element type is relocated by copy (copy-constructible,
move construction not known to be non-throwing), every `EmplaceBack` call that
ends in an exception, be it thrown by the allocation, by the construction of
the new element or by the copy construction of any relocated element, leaves
the vector in the state it had before the call: same buffer contents, same
size, same capacity.  This holds in particular on the growth path,
`size == capacity`. -/
theorem Throwing.EmplaceBack_strong_guarantee {Args W : Type} (T : ThrowingElem α Args W)
    (self : Vector α) (args : Args) (w : W)
    (hmove : T.nothrow_move_constructible = false) (hcopy : T.copy_constructible = true)
    (hthrown : (Throwing.EmplaceBack T self args w).1 = Outcome.thrown) :
    (Throwing.EmplaceBack T self args w).2.1 = self := by
  revert hthrown
  unfold Throwing.EmplaceBack
  by_cases hg : self.size_ + 1 > self.data_.Capacity
  · simp only [hg, if_true]
    generalize (if (self.size_ == 0) = true then 1 else self.size_ * 2) = c
    rcases hR : Throwing.Reserve T { data_ := RawMemory.ofCapacity 0, size_ := 0 } c w with
      ⟨_ | _, nv, w1⟩
    · intro _
      rfl
    · simp only []
      rcases hC : T.construct args w1 with ⟨_ | a, w2⟩
      · intro _
        rfl
      · simp only []
        have hsrc := Throwing.MakeInitialized_source T hmove hcopy self.data_.buffer_ 0
          (List.set nv.data_.buffer_ self.size_ (some a)) 0 self.size_ w2
        rcases hM : Throwing.MakeInitialized T self.data_.buffer_ 0
            (List.set nv.data_.buffer_ self.size_ (some a)) 0 self.size_ w2 with
          ⟨_ | _, old_buf, nv_buf, w3⟩
        · rw [hM] at hsrc
          simp only [] at hsrc
          intro _
          simp only [hsrc]
        · intro h
          exact absurd h (Throwing.return_last_ne_thrown _ _)
  · simp only [hg, if_false]
    rcases hC : T.construct args w with ⟨_ | a, w2⟩
    · intro _
      rfl
    · intro h
      exact absurd h (Throwing.return_last_ne_thrown _ _)

/-- Appending to the full vector `[1, 2, 3]` when the fourth constructor call
throws: the new element and two copies are constructed, the copy of the third
element throws, and the vector is as before. -/
theorem Throwing.EmplaceBack_strong_guarantee_witness :
    (throwingElem 4).nothrow_move_constructible = false ∧
      (throwingElem 4).copy_constructible = true ∧
      (Throwing.EmplaceBack (throwingElem 4) vec_full 4 0).1 = Outcome.thrown ∧
      (Throwing.EmplaceBack (throwingElem 4) vec_full 4 0).2.1 = vec_full :=
  ⟨rfl, rfl, rfl,
    Throwing.EmplaceBack_strong_guarantee (throwingElem 4) vec_full 4 0 rfl rfl rfl⟩

/-! ## Swap, copy construction and copy assignment -/

/-- Claim C11: the move assignment `d = std::move(s)` and `d.Swap(s)` exchange
the two states: `d` ends with the buffer (elements), size and capacity of `s`,
`s` ends with those of `d`, and swapping twice restores both. -/
theorem Vector.Swap_exchanges (d s : Vector α) :
    d.moveAssign s = (s, d) ∧ d.Swap s = (s, d) ∧ d.data_.Swap s.data_ = (s.data_, d.data_) ∧
      (d.moveAssign s).1.data_.buffer_ = s.data_.buffer_ ∧
      (d.moveAssign s).1.Size = s.Size ∧ (d.moveAssign s).1.Capacity = s.Capacity ∧
      (d.moveAssign s).2.data_.buffer_ = d.data_.buffer_ ∧
      (d.moveAssign s).2.Size = d.Size ∧ (d.moveAssign s).2.Capacity = d.Capacity ∧
      (∀ xs ys, s.Holds xs ∧ d.Holds ys ↔
        (d.moveAssign s).1.Holds xs ∧ (d.moveAssign s).2.Holds ys) ∧
      (d.Swap s).1.Swap (d.Swap s).2 = (d, s) := by
  refine ⟨rfl, rfl, rfl, rfl, rfl, rfl, rfl, rfl, rfl, fun xs ys => Iff.rfl, rfl⟩

theorem copy_n_eq_uninitialized_copy_n (src : Buffer α) (first n : Nat) (dst : Buffer α)
    (d_first : Nat) :
    copy_n src first n dst d_first = uninitialized_copy_n src first n dst d_first := by
  induction n generalizing first dst d_first with
  | zero => rfl
  | succ n ih => simp only [copy_n, uninitialized_copy_n, ih]

/-- The copy constructor copies the contents into a buffer of capacity `size`. -/
theorem Vector.copyCtor_holds (s : Vector α) (xs : List α) (h : s.Holds xs) :
    (Vector.copyCtor s).1.Holds xs ∧ (Vector.copyCtor s).1.data_.capacity_ = s.size_ := by
  have hr := h.read
  obtain ⟨h1, h2, h3, -⟩ := h
  refine ⟨Vector.Holds.intro ?_ ?_ h3 ?_, rfl⟩
  · simp [Vector.copyCtor, RawMemory.ofCapacity, length_uninitialized_copy_n,
      RawMemory.length_Allocate]
  · exact Nat.le_refl _
  · intro j hj
    have hj' : j < s.size_ := hj
    simp only [Vector.copyCtor, RawMemory.ofCapacity, read_uninitialized_copy_n,
      RawMemory.length_Allocate]
    rw [if_pos (by omega), ← hr j hj']
    congr 1
    omega

/-- Claim C12: the copy of a vector holding `xs` holds `xs`, has the size of the
source and a capacity equal to the size of the source (whatever the capacity of
the source is); the source keeps its state. -/
theorem Vector.copyCtor_spec (s : Vector α) (xs : List α) (h : s.Holds xs) :
    (Vector.copyCtor s).1.Holds xs ∧ (Vector.copyCtor s).1.Size = s.Size ∧
      (Vector.copyCtor s).1.Capacity = s.Size ∧ (Vector.copyCtor s).2 = s :=
  ⟨(Vector.copyCtor_holds s xs h).1, rfl, (Vector.copyCtor_holds s xs h).2, rfl⟩

/-- Copying the vector `[1, 2, 3]` held in a buffer of capacity 4 gives a
vector of capacity 3. -/
theorem Vector.copyCtor_spec_witness :
    vec_1_2_3.Holds [1, 2, 3] ∧ (Vector.copyCtor vec_1_2_3).1.Holds [1, 2, 3] ∧
      (Vector.copyCtor vec_1_2_3).1.Size = vec_1_2_3.Size ∧
      (Vector.copyCtor vec_1_2_3).1.Capacity = vec_1_2_3.Size ∧
      (Vector.copyCtor vec_1_2_3).2 = vec_1_2_3 :=
  ⟨by decide, Vector.copyCtor_spec vec_1_2_3 [1, 2, 3] (by decide)⟩

/-- Claim C13: for a destination holding `ys` and a distinct source holding
`xs`, after the copy assignment `d = s` the destination holds `xs` with the
size of the source and the source keeps its state, whether the source is
larger than the capacity of `d` (temporary copy and swap) or fits and is longer
than, as long as, or shorter than `d`; the capacity of `d` becomes the size of
the source when that size exceeded the old capacity and is unchanged otherwise.
A self-assignment changes nothing. -/
theorem Vector.copyAssign_spec (d s : Vector α) (ys xs : List α) (hd : d.Holds ys)
    (hs : s.Holds xs) :
    (d.copyAssign s false).1.Holds xs ∧ (d.copyAssign s false).1.Size = s.Size ∧
      (d.copyAssign s false).2 = s ∧
      (d.copyAssign s false).1.Capacity =
        (if s.Size > d.Capacity then s.Size else d.Capacity) ∧
      d.copyAssign d true = (d, d) ∧ (d.copyAssign d true).1.Holds ys := by
  have hsr := hs.read
  obtain ⟨c1, c3⟩ := Vector.copyCtor_holds s xs hs
  have c2 : (Vector.copyCtor s).1.Size = s.Size := rfl
  have c4 : (Vector.copyCtor s).2 = s := rfl
  have hd' := hd
  obtain ⟨d1, d2, d3, -⟩ := hd
  obtain ⟨s1, s2, s3, -⟩ := hs
  by_cases hg : s.size_ > d.data_.Capacity
  · have hg' : s.Size > d.Capacity := hg
    have e : d.copyAssign s false = ((Vector.copyCtor s).1, (Vector.copyCtor s).2) := by
      unfold Vector.copyAssign
      simp only [Bool.not_false, if_true, hg, Vector.Swap, RawMemory.Swap]
    rw [e, if_pos hg']
    exact ⟨c1, c2, c4, c3, rfl, hd'⟩
  · have hg' : ¬ s.Size > d.Capacity := hg
    have hg'' : ¬ s.size_ > d.data_.capacity_ := hg
    rw [if_neg hg']
    refine ⟨?_, ?_, ?_, ?_, rfl, hd'⟩
    all_goals unfold Vector.copyAssign
    all_goals simp only [Bool.not_false, if_true, hg, if_false]
    · refine Vector.Holds.intro ?_ ?_ s3 ?_
      · by_cases h1 : d.size_ < s.size_
        · simp [h1, length_uninitialized_copy_n, copy_n_eq_uninitialized_copy_n, d1]
        · by_cases h2 : s.size_ < d.size_
          · simp [h1, h2, length_destroy_n, length_uninitialized_copy_n,
              copy_n_eq_uninitialized_copy_n, d1]
          · simp [h1, h2, length_uninitialized_copy_n, copy_n_eq_uninitialized_copy_n, d1]
      · show s.size_ ≤ d.data_.capacity_
        omega
      · intro j hj
        have hj' : j < s.size_ := hj
        rw [← hsr j hj']
        by_cases h1 : d.size_ < s.size_
        · simp only [h1, if_true, Vector.Size, read_uninitialized_copy_n,
            copy_n_eq_uninitialized_copy_n, length_uninitialized_copy_n]
          split_ifs
          all_goals first
            | rfl
            | (exfalso; omega)
            | (congr 1; omega)
        · by_cases h2 : s.size_ < d.size_
          · simp only [h1, h2, if_true, if_false, read_destroy_n, read_uninitialized_copy_n,
              copy_n_eq_uninitialized_copy_n, length_uninitialized_copy_n]
            split_ifs
            all_goals first
              | rfl
              | (exfalso; omega)
              | (congr 1; omega)
          · simp only [h1, h2, if_false, read_uninitialized_copy_n,
              copy_n_eq_uninitialized_copy_n]
            split_ifs
            all_goals first
              | rfl
              | (exfalso; omega)
              | (congr 1; omega)
    · rfl
    · rfl

/-- Copy-assigning `[1, 2, 3]` to a vector holding `[7]` in a buffer of capacity 1. -/
theorem Vector.copyAssign_spec_witness :
    vec_7.Holds [7] ∧ vec_1_2_3.Holds [1, 2, 3] ∧
      (vec_7.copyAssign vec_1_2_3 false).1.Holds [1, 2, 3] ∧
      (vec_7.copyAssign vec_1_2_3 false).1.Size = vec_1_2_3.Size ∧
      (vec_7.copyAssign vec_1_2_3 false).2 = vec_1_2_3 ∧
      (vec_7.copyAssign vec_1_2_3 false).1.Capacity =
        (if vec_1_2_3.Size > vec_7.Capacity then vec_1_2_3.Size else vec_7.Capacity) ∧
      vec_7.copyAssign vec_7 true = (vec_7, vec_7) ∧
      (vec_7.copyAssign vec_7 true).1.Holds [7] :=
  ⟨by decide, by decide, Vector.copyAssign_spec vec_7 vec_1_2_3 [7] [1, 2, 3] (by decide)
    (by decide)⟩

/-- Claim C14: when the size of the source exceeds the capacity of the
destination, every copy assignment `d = s` that ends in an exception, thrown by
the allocation of the temporary copy or by the copy construction of any element
of `s`, leaves `d` in the state it had before the call (same elements, size
and capacity), and `s` as well. -/
theorem Throwing.copyAssign_strong_guarantee {Args W : Type} (T : ThrowingAssignElem α Args W)
    (d s : Vector α) (w : W) (hgrow : s.Size > d.Capacity)
    (hthrown : (Throwing.copyAssign T d s false w).1 = Outcome.thrown) :
    (Throwing.copyAssign T d s false w).2.1 = d ∧
      (Throwing.copyAssign T d s false w).2.2.1 = s := by
  have hg : s.size_ > d.data_.Capacity := hgrow
  revert hthrown
  unfold Throwing.copyAssign
  simp only [Bool.not_false, if_true, hg]
  rcases hC : Throwing.copyCtor T.toThrowingElem s w with ⟨_ | rhs_copy, w1⟩
  · intro _
    exact ⟨rfl, rfl⟩
  · intro h
    simp at h

/-- Copy-assigning `[1, 2, 3]` to a vector of capacity 1 when the third
constructor call throws: two elements are copied into the temporary, the copy
of the third throws, and both vectors are as before. -/
theorem Throwing.copyAssign_strong_guarantee_witness :
    vec_full.Size > vec_7.Capacity ∧
      (Throwing.copyAssign (throwingAssignElem 3) vec_7 vec_full false 0).1 = Outcome.thrown ∧
      (Throwing.copyAssign (throwingAssignElem 3) vec_7 vec_full false 0).2.1 = vec_7 ∧
      (Throwing.copyAssign (throwingAssignElem 3) vec_7 vec_full false 0).2.2.1 = vec_full :=
  ⟨by decide, rfl,
    Throwing.copyAssign_strong_guarantee (throwingAssignElem 3) vec_7 vec_full 0 (by decide)
      rfl⟩

/-! ## Growth by doubling over a run of appends -/

/-- One step of the doubling rule: if after `k` appends the capacity is `0`
(for `k = 0`) or a power of two in `[k, 2 * k)`, the same holds after `k + 1`
appends. -/
theorem doubling_step (k cap : Nat)
    (h : (k = 0 ∧ cap = 0) ∨ (k ≤ cap ∧ cap < 2 * k ∧ ∃ m, cap = 2 ^ m)) :
    k + 1 ≤ (if k + 1 > cap then max 1 (2 * cap) else cap) ∧
      (if k + 1 > cap then max 1 (2 * cap) else cap) < 2 * (k + 1) ∧
      ∃ m, (if k + 1 > cap then max 1 (2 * cap) else cap) = 2 ^ m := by
  rcases h with ⟨rfl, rfl⟩ | ⟨h1, h2, m, hm⟩
  · exact ⟨by decide, by decide, 0, by decide⟩
  · by_cases hg : k + 1 > cap
    · rw [if_pos hg]
      have hmax : max 1 (2 * cap) = 2 * cap := by omega
      rw [hmax]
      refine ⟨by omega, by omega, m + 1, ?_⟩
      rw [hm, Nat.pow_succ]
      omega
    · rw [if_neg hg]
      exact ⟨by omega, by omega, m, hm⟩

/-- The capacity after a run of `PushBack` calls on a vector whose capacity
follows the doubling rule. -/
theorem Vector.pushBackAll_capacity (E : ElemType α) (as : List α) (v : Vector α)
    (xs : List α) (h : v.Holds xs)
    (hcap : (xs.length = 0 ∧ v.data_.capacity_ = 0) ∨
      (xs.length ≤ v.data_.capacity_ ∧ v.data_.capacity_ < 2 * xs.length ∧
        ∃ m, v.data_.capacity_ = 2 ^ m)) :
    ∃ v', Vector.pushBackAll E v as = some v' ∧ v'.Holds (xs ++ as) ∧
      ((as = [] ∧ v' = v) ∨
        ((xs ++ as).length ≤ v'.data_.capacity_ ∧ v'.data_.capacity_ < 2 * (xs ++ as).length ∧
          ∃ m, v'.data_.capacity_ = 2 ^ m)) := by
  induction as generalizing v xs with
  | nil =>
    refine ⟨v, rfl, ?_, Or.inl ⟨rfl, rfl⟩⟩
    simpa using h
  | cons a as ih =>
    obtain ⟨v1, e1, e2, e3, -, e5⟩ := Vector.EmplaceBack_holds E v xs a h
    have h3 : v.size_ = xs.length := h.2.2.1
    have hstep := doubling_step xs.length v.data_.capacity_ hcap
    rw [h3] at e5
    rw [← e5] at hstep
    have hlen : (xs ++ [a]).length = xs.length + 1 := by simp
    obtain ⟨v', f1, f2, f3⟩ := ih v1 (xs ++ [a]) e2 (Or.inr (by rw [hlen]; exact hstep))
    have happ : xs ++ [a] ++ as = xs ++ a :: as := by simp
    rw [happ] at f2 f3
    refine ⟨v', ?_, f2, Or.inr ?_⟩
    · simp only [Vector.pushBackAll, Vector.PushBack, e1, Option.map_some']
      exact f1
    · rcases f3 with ⟨rfl, rfl⟩ | f3
      · have hl : (xs ++ [a]).length = xs.length + 1 := hlen
        simpa [hl] using hstep
      · exact f3

/-- Claim C20: a default-constructed vector that receives `N ≥ 1` successive
`PushBack` calls holds the pushed elements and has a capacity that is a power
of two, at least `N`, less than `2 * N`, and the smallest power of two that is
at least `N`. -/
theorem Vector.capacity_after_appends (E : ElemType α) (as : List α) (hN : 1 ≤ as.length) :
    ∃ v m, Vector.pushBackAll E Vector.defaultCtor as = some v ∧ v.Holds as ∧
      v.Capacity = 2 ^ m ∧ as.length ≤ 2 ^ m ∧ 2 ^ m < 2 * as.length ∧
      ∀ j, as.length ≤ 2 ^ j → 2 ^ m ≤ 2 ^ j := by
  have h0 : (Vector.defaultCtor : Vector α).Holds [] := ⟨rfl, Nat.le_refl 0, rfl, rfl⟩
  obtain ⟨v, e1, e2, e3⟩ :=
    Vector.pushBackAll_capacity E as Vector.defaultCtor [] h0 (Or.inl ⟨rfl, rfl⟩)
  simp only [List.nil_append] at e2 e3
  rcases e3 with ⟨rfl, -⟩ | ⟨c1, c2, m, hm⟩
  · simp at hN
  · refine ⟨v, m, e1, e2, hm, by rw [← hm]; exact c1, by rw [← hm]; exact c2, ?_⟩
    intro j hj
    apply Nat.pow_le_pow_right (by decide)
    by_contra hlt
    have hjm : j + 1 ≤ m := by omega
    have hpow : 2 ^ (j + 1) ≤ 2 ^ m := Nat.pow_le_pow_right (by decide) hjm
    rw [Nat.pow_succ] at hpow
    omega

/-- Five appends to an empty vector end with capacity 8. -/
theorem Vector.capacity_after_appends_witness :
    1 ≤ [1, 2, 3, 4, 5].length ∧
      ∃ v m, Vector.pushBackAll intElem Vector.defaultCtor [1, 2, 3, 4, 5] = some v ∧
        v.Holds [1, 2, 3, 4, 5] ∧ v.Capacity = 2 ^ m ∧ [1, 2, 3, 4, 5].length ≤ 2 ^ m ∧
        2 ^ m < 2 * [1, 2, 3, 4, 5].length ∧
        ∀ j, [1, 2, 3, 4, 5].length ≤ 2 ^ j → 2 ^ m ≤ 2 ^ j :=
  ⟨by decide, Vector.capacity_after_appends intElem [1, 2, 3, 4, 5] (by decide)⟩

/-! ## Counting the relocated elements -/

theorem Throwing.destroy_n_counting (E : ElemType α) (buf : Buffer α) (first n w : Nat) :
    (Throwing.destroy_n (countingElem E) buf first n w).2 = w := by
  induction n generalizing buf first w with
  | zero => rfl
  | succ n ih =>
    unfold Throwing.destroy_n
    rcases buf.read first with _ | x
    · exact ih _ _ _
    · exact ih _ _ _

theorem Throwing.uninitialized_copy_loop_counting (E : ElemType α) (src : Buffer α)
    (d_first first n : Nat) (dst : Buffer α) (cur w : Nat)
    (hsome : ∀ k, first ≤ k → k < first + n → src.read k ≠ none) :
    (Throwing.uninitialized_copy_loop (countingElem E) src d_first first n dst cur w).2.2 =
      w + n := by
  induction n generalizing first dst cur w with
  | zero => rfl
  | succ n ih =>
    unfold Throwing.uninitialized_copy_loop
    rcases hs : src.read first with _ | x
    · exact absurd hs (hsome first (Nat.le_refl _) (by omega))
    · exact (ih (first + 1) (dst.set cur (some x)) (cur + 1) (w + 1)
        (fun k hk1 hk2 => hsome k (by omega) (by omega))).trans (by omega)

theorem Throwing.uninitialized_move_loop_counting (E : ElemType α) (d_first : Nat)
    (src : Buffer α) (first n : Nat) (dst : Buffer α) (cur w : Nat)
    (hsome : ∀ k, first ≤ k → k < first + n → src.read k ≠ none) :
    (Throwing.uninitialized_move_loop (countingElem E) d_first src first n dst cur w).2.2.2 =
      w + n := by
  induction n generalizing src first dst cur w with
  | zero => rfl
  | succ n ih =>
    unfold Throwing.uninitialized_move_loop
    rcases hs : src.read first with _ | x
    · exact absurd hs (hsome first (Nat.le_refl _) (by omega))
    · refine (ih (src.set first (some (E.moved_from x))) (first + 1) (dst.set cur (some x))
        (cur + 1) (w + 1) ?_).trans (by omega)
      intro k hk1 hk2
      rw [read_set, if_neg (by omega)]
      exact hsome k (by omega) (by omega)

theorem Throwing.MakeInitialized_counting (E : ElemType α) (src : Buffer α) (first : Nat)
    (dst : Buffer α) (d_first number w : Nat)
    (hsome : ∀ k, first ≤ k → k < first + number → src.read k ≠ none) :
    (Throwing.MakeInitialized (countingElem E) src first dst d_first number w).2.2.2 =
      w + number := by
  unfold Throwing.MakeInitialized
  split
  · exact Throwing.uninitialized_move_loop_counting E d_first src first number dst d_first w
      hsome
  · exact Throwing.uninitialized_copy_loop_counting E src d_first first number dst d_first w
      hsome

theorem Throwing.Reserve_empty_counting (E : ElemType α) (c w : Nat) :
    (Throwing.Reserve (countingElem E) { data_ := RawMemory.ofCapacity 0, size_ := 0 } c w).2.2 =
      w := by
  unfold Throwing.Reserve
  split
  · rfl
  · have hc0 : (c != 0) = true := by
      rename_i hc
      simp [Vector.Capacity, RawMemory.Capacity, RawMemory.ofCapacity] at hc
      simpa using hc
    simp only [Throwing.RawMemory_ofCapacity, hc0, if_true, countingElem]
    have hm := Throwing.MakeInitialized_counting E
      (RawMemory.ofCapacity 0 : RawMemory α).buffer_ 0 (List.replicate c none) 0 0 w
      (fun k hk1 hk2 => by omega)
    rcases hM : Throwing.MakeInitialized (countingElem E)
        (RawMemory.ofCapacity 0 : RawMemory α).buffer_ 0 (List.replicate c none) 0 0 w with
      ⟨_ | _, old_buf, new_buf, w1⟩
    · rw [hM] at hm
      simp only [] at hm
      simp only [countingElem] at hM
      simp only [hM]
      omega
    · rw [hM] at hm
      simp only [] at hm
      simp only [countingElem] at hM
      simp only [hM, Throwing.destroy_n]
      omega

theorem Throwing.return_last_world {W : Type} (v : Vector α) (w : W) :
    (Throwing.return_last v w).2.2 = w := by
  unfold Throwing.return_last
  split <;> rfl

/-- With the counting element type, one `EmplaceBack` on a vector holding `xs`
returns what the plain `EmplaceBack` returns and raises the count by the number
of relocated elements: `size` on the growth path, none otherwise. -/
theorem Throwing.EmplaceBack_counting (E : ElemType α) (v : Vector α) (xs : List α) (a : α)
    (w : Nat) (h : v.Holds xs) :
    ∃ r v', v.EmplaceBack E a = some (r, v') ∧
      Throwing.EmplaceBack (countingElem E) v a w =
        (Outcome.returned r, v',
          w + (if v.size_ + 1 > v.data_.capacity_ then v.size_ else 0)) := by
  have hr := h.read
  obtain ⟨v', e1, -⟩ := Vector.EmplaceBack_holds E v xs a h
  obtain ⟨n1, n2⟩ := Throwing.EmplaceBack_nothrow (countingElem E) E rfl rfl
    (fun _ _ => rfl) (fun _ _ => rfl) (fun _ _ => rfl) v a a (fun _ => rfl) w _ v' e1
  have h3 : v.size_ = xs.length := h.2.2.1
  have hsome : ∀ k, 0 ≤ k → k < 0 + v.size_ → v.data_.buffer_.read k ≠ none := by
    intro k _ hk
    rw [hr k (by omega), List.getElem?_eq_getElem (by omega)]
    simp
  have hw : (Throwing.EmplaceBack (countingElem E) v a w).2.2 =
      w + (if v.size_ + 1 > v.data_.capacity_ then v.size_ else 0) := by
    unfold Throwing.EmplaceBack
    by_cases hg : v.size_ + 1 > v.data_.Capacity
    · have hg' : v.size_ + 1 > v.data_.capacity_ := hg
      simp only [hg, if_true]
      rw [if_pos hg']
      generalize (if (v.size_ == 0) = true then 1 else v.size_ * 2) = c
      obtain ⟨r1, -⟩ := Throwing.Reserve_nothrow (countingElem E) E rfl rfl (fun _ _ => rfl)
        (fun _ _ => rfl) (fun _ _ => rfl) { data_ := RawMemory.ofCapacity 0, size_ := 0 } c w
      have r2 := Throwing.Reserve_empty_counting E c w
      rcases hR : Throwing.Reserve (countingElem E)
          { data_ := RawMemory.ofCapacity 0, size_ := 0 } c w with ⟨ok, nv, w1⟩
      rw [hR] at r1 r2
      simp only [] at r1 r2
      subst r1 r2
      simp only []
      have hC : (countingElem E).construct a w1 = (some a, w1) := rfl
      rw [hC]
      simp only []
      obtain ⟨m1, -⟩ := Throwing.MakeInitialized_nothrow (countingElem E) E rfl rfl
        (fun _ _ => rfl) (fun _ _ => rfl) v.data_.buffer_ 0
        (List.set nv.data_.buffer_ v.size_ (some a)) 0 v.size_ w1
      have m2 := Throwing.MakeInitialized_counting E v.data_.buffer_ 0
        (List.set nv.data_.buffer_ v.size_ (some a)) 0 v.size_ w1 hsome
      rcases hM : Throwing.MakeInitialized (countingElem E) v.data_.buffer_ 0
          (List.set nv.data_.buffer_ v.size_ (some a)) 0 v.size_ w1 with
        ⟨ok2, old_buf, nv_buf, w3⟩
      rw [hM] at m1 m2
      simp only [] at m1 m2
      subst m1 m2
      simp only [Vector.Swap, RawMemory.Swap, Throwing.return_last_world, Throwing.dtor,
        Throwing.destroy_n_counting]
    · have hg' : ¬ v.size_ + 1 > v.data_.capacity_ := hg
      simp only [hg, if_false]
      rw [if_neg hg']
      have hC : (countingElem E).construct a w = (some a, w) := rfl
      rw [hC]
      simp only [Throwing.return_last_world]
      rfl
  refine ⟨_, v', e1, ?_⟩
  rw [← n1, ← n2, ← hw]

/-- Over a run of `EmplaceBack` calls the count of relocated elements stays one
below the capacity, and the capacity stays below twice the size. -/
theorem Throwing.emplaceBackAll_counting (E : ElemType α) (as : List α) (v : Vector α)
    (xs : List α) (w : Nat) (h : v.Holds xs)
    (hcap : (xs.length = 0 ∧ v.data_.capacity_ = 0 ∧ w = 0) ∨
      (xs.length ≤ v.data_.capacity_ ∧ v.data_.capacity_ < 2 * xs.length ∧
        w + 1 = v.data_.capacity_)) :
    ∃ v' w', Throwing.emplaceBackAll (countingElem E) v as w = (true, v', w') ∧
      v'.Holds (xs ++ as) ∧
      ((as = [] ∧ v' = v ∧ w' = w) ∨
        ((xs ++ as).length ≤ v'.data_.capacity_ ∧
          v'.data_.capacity_ < 2 * (xs ++ as).length ∧ w' + 1 = v'.data_.capacity_)) := by
  induction as generalizing v xs w with
  | nil =>
    refine ⟨v, w, rfl, ?_, Or.inl ⟨rfl, rfl, rfl⟩⟩
    simpa using h
  | cons a as ih =>
    obtain ⟨r, v1, e1, e2⟩ := Throwing.EmplaceBack_counting E v xs a w h
    obtain ⟨v1', p1, p2, p3, -, p5⟩ := Vector.EmplaceBack_holds E v xs a h
    rw [e1] at p1
    simp only [Option.some.injEq, Prod.mk.injEq] at p1
    obtain ⟨-, rfl⟩ := p1
    have h2 : v.size_ ≤ v.data_.capacity_ := h.2.1
    have h3 : v.size_ = xs.length := h.2.2.1
    have hlen : (xs ++ [a]).length = xs.length + 1 := by simp
    have hstep : (xs ++ [a]).length ≤ v1.data_.capacity_ ∧
        v1.data_.capacity_ < 2 * (xs ++ [a]).length ∧
        w + (if v.size_ + 1 > v.data_.capacity_ then v.size_ else 0) + 1 =
          v1.data_.capacity_ := by
      rw [hlen, p5]
      by_cases hg : v.size_ + 1 > v.data_.capacity_
      · rw [if_pos hg, if_pos hg]
        omega
      · rw [if_neg hg, if_neg hg]
        omega
    obtain ⟨v', w', f1, f2, f3⟩ := ih v1 (xs ++ [a]) _ p2 (Or.inr hstep)
    have happ : xs ++ [a] ++ as = xs ++ a :: as := by simp
    rw [happ] at f2 f3
    refine ⟨v', w', ?_, f2, Or.inr ?_⟩
    · simp only [Throwing.emplaceBackAll, e2]
      exact f1
    · rcases f3 with ⟨rfl, rfl, rfl⟩ | f3
      · simpa [hlen] using hstep
      · exact f3

/-- Claim C15: `N ≥ 1` successive `EmplaceBack` calls on a default-constructed
vector all return, and the number of elements relocated to a new buffer (the
objects constructed by copy or by move), summed over the `N` calls, is less
than `2 * N`. -/
theorem Throwing.relocations_linear (E : ElemType α) (as : List α) (hN : 1 ≤ as.length) :
    ∃ v relocated,
      Throwing.emplaceBackAll (countingElem E) Vector.defaultCtor as 0 = (true, v, relocated) ∧
      v.Holds as ∧ relocated < 2 * as.length := by
  have h0 : (Vector.defaultCtor : Vector α).Holds [] := ⟨rfl, Nat.le_refl 0, rfl, rfl⟩
  obtain ⟨v, w, e1, e2, e3⟩ :=
    Throwing.emplaceBackAll_counting E as Vector.defaultCtor [] 0 h0 (Or.inl ⟨rfl, rfl, rfl⟩)
  simp only [List.nil_append] at e2 e3
  rcases e3 with ⟨rfl, -, -⟩ | ⟨-, c2, c3⟩
  · simp at hN
  · exact ⟨v, w, e1, e2, by omega⟩

/-- Nine appends to an empty vector relocate 15 elements in all. -/
theorem Throwing.relocations_linear_witness :
    1 ≤ [1, 2, 3, 4, 5, 6, 7, 8, 9].length ∧
      ∃ v relocated,
        Throwing.emplaceBackAll (countingElem intElem) Vector.defaultCtor
          [1, 2, 3, 4, 5, 6, 7, 8, 9] 0 = (true, v, relocated) ∧
        v.Holds [1, 2, 3, 4, 5, 6, 7, 8, 9] ∧
        relocated < 2 * [1, 2, 3, 4, 5, 6, 7, 8, 9].length :=
  ⟨by decide, Throwing.relocations_linear intElem [1, 2, 3, 4, 5, 6, 7, 8, 9] (by decide)⟩

/-! ## The invariant `size ≤ capacity` -/

theorem Vector.Reserve_shape (E : ElemType α) (v : Vector α) (c : Nat) :
    (v.Reserve E c).size_ = v.size_ ∧
      (v.Reserve E c).data_.capacity_ = max v.data_.capacity_ c := by
  unfold Vector.Reserve
  by_cases hc : c ≤ v.Capacity
  · have hc' : c ≤ v.data_.capacity_ := hc
    rw [if_pos hc]
    exact ⟨rfl, by omega⟩
  · have hc' : ¬ c ≤ v.data_.capacity_ := hc
    rw [if_neg hc]
    simp only [RawMemory.Swap, RawMemory.ofCapacity, true_and]
    omega

theorem Vector.Resize_shape (E : ElemType α) (v : Vector α) (n : Nat) :
    (v.Resize E n).size_ = n ∧
      (v.Resize E n).data_.capacity_ =
        if n < v.size_ then v.data_.capacity_ else max v.data_.capacity_ n := by
  unfold Vector.Resize
  by_cases hn : n < v.size_
  · simp only [hn, if_true, and_self]
  · simp only [hn, if_false, true_and]
    by_cases hc : n > v.data_.Capacity
    · simp only [hc, if_true]
      exact (Vector.Reserve_shape E v n).2
    · have hc' : ¬ n > v.data_.capacity_ := hc
      simp only [hc, if_false]
      omega

theorem Vector.Reserve_wrapping_shape (w sizeof_T : Nat) (E : ElemType α) (v : Vector α)
    (c : Nat) :
    (v.Reserve_wrapping w sizeof_T E c).size_ = v.size_ ∧
      (v.Reserve_wrapping w sizeof_T E c).data_.capacity_ = max v.data_.capacity_ c := by
  unfold Vector.Reserve_wrapping
  by_cases hc : c ≤ v.Capacity
  · have hc' : c ≤ v.data_.capacity_ := hc
    rw [if_pos hc]
    exact ⟨rfl, by omega⟩
  · have hc' : ¬ c ≤ v.data_.capacity_ := hc
    rw [if_neg hc]
    simp only [RawMemory.Swap, RawMemory.ofCapacity_wrapping, true_and]
    omega

theorem Vector.Resize_wrapping_shape (w sizeof_T : Nat) (E : ElemType α) (v : Vector α)
    (n : Nat) :
    (v.Resize_wrapping w sizeof_T E n).size_ = n ∧
      (v.Resize_wrapping w sizeof_T E n).data_.capacity_ =
        if n < v.size_ then v.data_.capacity_ else max v.data_.capacity_ n := by
  unfold Vector.Resize_wrapping
  by_cases hn : n < v.size_
  · simp only [hn, if_true, and_self]
  · simp only [hn, if_false, true_and]
    by_cases hc : n > v.data_.Capacity
    · simp only [hc, if_true]
      exact (Vector.Reserve_wrapping_shape w sizeof_T E v n).2
    · have hc' : ¬ n > v.data_.capacity_ := hc
      simp only [hc, if_false]
      omega

theorem Vector.EmplaceBack_shape (E : ElemType α) (v : Vector α) (a : α) :
    ∃ r v', v.EmplaceBack E a = some (r, v') ∧ v'.size_ = v.size_ + 1 ∧
      v'.size_ ≤ v'.data_.capacity_ := by
  unfold Vector.EmplaceBack
  by_cases hcap : v.size_ + 1 > v.data_.Capacity
  · have hc : 0 < (if (v.size_ == 0) = true then 1 else v.size_ * 2) := by
      split
      · omega
      · rename_i h0
        simp at h0
        omega
    have hc1 : v.size_ + 1 ≤ (if (v.size_ == 0) = true then 1 else v.size_ * 2) := by
      split
      · rename_i h0
        simp at h0
        omega
      · rename_i h0
        simp at h0
        omega
    simp only [hcap, if_true, Vector.Reserve_ofSize_zero E _ hc, Vector.Swap, RawMemory.Swap,
      RawMemory.index]
    generalize (if (v.size_ == 0) = true then 1 else v.size_ * 2) = c at hc hc1 ⊢
    rw [if_pos (by omega)]
    exact ⟨_, _, rfl, rfl, hc1⟩
  · have hcap' : ¬ v.size_ + 1 > v.data_.capacity_ := hcap
    simp only [hcap, if_false, RawMemory.index]
    rw [if_pos (by omega)]
    refine ⟨_, _, rfl, rfl, ?_⟩
    show v.size_ + 1 ≤ v.data_.capacity_
    omega

theorem Vector.Emplace_shape (E : ElemType α) (v : Vector α) (i : Nat)
    (braced parenthesised : α) :
    ∃ r v', v.Emplace E (i : Int) braced parenthesised = some (r, v') ∧
      v'.size_ = v.size_ + 1 ∧
      v'.size_ ≤ v'.data_.capacity_ := by
  unfold Vector.Emplace
  by_cases hend : i = v.size_
  · obtain ⟨r, v', e1, e2, e3⟩ := Vector.EmplaceBack_shape E v braced
    have hpos : ((i : Int) = v.cend) := by simp [Vector.cend, Vector.cbegin, hend]
    rw [if_pos hpos, e1]
    exact ⟨_, v', rfl, e2, e3⟩
  · have hpos : ¬ ((i : Int) = v.cend) := by
      simp only [Vector.cend, Vector.cbegin]
      omega
    rw [if_neg hpos]
    by_cases hcap : v.size_ + 1 > v.data_.Capacity
    · have hc : 0 < (if (v.size_ == 0) = true then 1 else v.size_ * 2) := by
        split
        · omega
        · rename_i h0
          simp at h0
          omega
      have hc1 : v.size_ + 1 ≤ (if (v.size_ == 0) = true then 1 else v.size_ * 2) := by
        split
        · rename_i h0
          simp at h0
          omega
        · rename_i h0
          simp at h0
          omega
      simp only [hcap, if_true, Vector.Reserve_ofSize_zero E _ hc, Vector.Swap, RawMemory.Swap]
      exact ⟨_, _, rfl, rfl, hc1⟩
    · have hcap' : ¬ v.size_ + 1 > v.data_.capacity_ := hcap
      simp only [hcap, if_false]
      refine ⟨_, _, rfl, rfl, ?_⟩
      show v.size_ + 1 ≤ v.data_.capacity_
      omega

theorem Vector.PopBack_shape (v : Vector α) (hv : v.size_ ≤ v.data_.capacity_)
    (hpos : 0 < v.size_) :
    ∃ v', v.PopBack = some v' ∧ v'.size_ + 1 = v.size_ ∧ v'.size_ ≤ v'.data_.capacity_ := by
  unfold Vector.PopBack
  rw [if_pos hpos]
  refine ⟨_, rfl, ?_, ?_⟩
  · show v.size_ - 1 + 1 = v.size_
    omega
  · show v.size_ - 1 ≤ v.data_.capacity_
    omega

theorem Vector.Erase_shape (E : ElemType α) (v : Vector α) (i : Nat)
    (hv : v.size_ ≤ v.data_.capacity_) (hi : i < v.size_) :
    ∃ r v', v.Erase E (i : Int) = some (r, v') ∧ v'.size_ + 1 = v.size_ ∧
      v'.size_ ≤ v'.data_.capacity_ := by
  unfold Vector.Erase
  by_cases hlast : (i : Int) = v.cend - 1
  · obtain ⟨v', e1, e2, e3⟩ := Vector.PopBack_shape v hv (by omega)
    rw [if_pos hlast, e1]
    exact ⟨_, v', rfl, e2, e3⟩
  · rw [if_neg hlast]
    refine ⟨_, _, rfl, ?_, ?_⟩
    · rw [(Vector.Resize_shape E _ _).1]
      show v.size_ - 1 + 1 = v.size_
      omega
    · rw [(Vector.Resize_shape E _ _).1, (Vector.Resize_shape E _ _).2]
      show v.size_ - 1 ≤ (if v.size_ - 1 < v.size_ then v.data_.capacity_
        else max v.data_.capacity_ (v.size_ - 1))
      split <;> omega

/-- Claim C17: the invariant `size ≤ capacity` holds for the default-constructed,
the sized-constructed, the copy-constructed and the move-constructed vector
(and for the source a move construction leaves behind), and every public
operation called within its precondition on vectors that satisfy the invariant
leaves vectors that satisfy it: copy assignment (also to itself), move
assignment, `Swap`, `Reserve`, `Resize`, `EmplaceBack`/`PushBack`,
`Emplace`/`Insert` at a position `i ≤ size` (whatever element the arguments
of `Emplace` construct with braces, `a`, and with parentheses, `b`), `PopBack`
on a non-empty vector and `Erase` at a position `i < size`.  For `Reserve` and
`Resize` the inequality between the two fields also holds when the byte count
of the allocation wraps in a `size_t` of `w` bits. -/
theorem Vector.invariant_preserved (E : ElemType α) (v s : Vector α) (a b : α) (n c i : Nat)
    (w sizeof_T : Nat) (hv : v.Size ≤ v.Capacity) (hs : s.Size ≤ s.Capacity) :
    (Vector.defaultCtor : Vector α).Size ≤ (Vector.defaultCtor : Vector α).Capacity ∧
      (Vector.ofSize E n).Size ≤ (Vector.ofSize E n).Capacity ∧
      (Vector.copyCtor s).1.Size ≤ (Vector.copyCtor s).1.Capacity ∧
      (Vector.copyCtor s).2.Size ≤ (Vector.copyCtor s).2.Capacity ∧
      (Vector.moveCtor s).1.Size ≤ (Vector.moveCtor s).1.Capacity ∧
      (Vector.moveCtor s).2.Size ≤ (Vector.moveCtor s).2.Capacity ∧
      (v.copyAssign s false).1.Size ≤ (v.copyAssign s false).1.Capacity ∧
      (v.copyAssign s false).2.Size ≤ (v.copyAssign s false).2.Capacity ∧
      (v.copyAssign v true).1.Size ≤ (v.copyAssign v true).1.Capacity ∧
      (v.moveAssign s).1.Size ≤ (v.moveAssign s).1.Capacity ∧
      (v.moveAssign s).2.Size ≤ (v.moveAssign s).2.Capacity ∧
      (v.Swap s).1.Size ≤ (v.Swap s).1.Capacity ∧
      (v.Swap s).2.Size ≤ (v.Swap s).2.Capacity ∧
      (v.Reserve E c).Size ≤ (v.Reserve E c).Capacity ∧
      (v.Resize E n).Size ≤ (v.Resize E n).Capacity ∧
      (∃ r v', v.EmplaceBack E a = some (r, v') ∧ v.PushBack E a = some v' ∧
        v'.Size ≤ v'.Capacity) ∧
      (i ≤ v.Size → ∃ r v', v.Emplace E (i : Int) a a = some (r, v') ∧
        v.Insert E (i : Int) a = some (r, v') ∧ v'.Size ≤ v'.Capacity) ∧
      (i ≤ v.Size → ∃ r v', v.Emplace E (i : Int) a b = some (r, v') ∧
        v'.Size ≤ v'.Capacity) ∧
      (0 < v.Size → ∃ v', v.PopBack = some v' ∧ v'.Size ≤ v'.Capacity) ∧
      (i < v.Size →
        ∃ r v', v.Erase E (i : Int) = some (r, v') ∧ v'.Size ≤ v'.Capacity) ∧
      (v.Reserve_wrapping w sizeof_T E c).Size ≤ (v.Reserve_wrapping w sizeof_T E c).Capacity ∧
      (v.Resize_wrapping w sizeof_T E n).Size ≤ (v.Resize_wrapping w sizeof_T E n).Capacity := by
  have hv' : v.size_ ≤ v.data_.capacity_ := hv
  have hs' : s.size_ ≤ s.data_.capacity_ := hs
  refine ⟨Nat.le_refl 0, Nat.le_refl n, Nat.le_refl _, hs, hs, Nat.le_refl 0, ?_, ?_, hv, hs, hv,
    hs, hv, ?_, ?_, ?_, ?_, ?_, ?_, ?_, ?_, ?_⟩
  · show (v.copyAssign s false).1.size_ ≤ (v.copyAssign s false).1.data_.capacity_
    unfold Vector.copyAssign
    simp only [Bool.not_false, if_true]
    by_cases hg : s.size_ > v.data_.Capacity
    · simp only [hg, if_true, Vector.Swap, RawMemory.Swap]
      exact Nat.le_refl _
    · have hg' : ¬ s.size_ > v.data_.capacity_ := hg
      simp only [hg, if_false]
      show s.size_ ≤ v.data_.capacity_
      omega
  · show (v.copyAssign s false).2.size_ ≤ (v.copyAssign s false).2.data_.capacity_
    unfold Vector.copyAssign
    simp only [Bool.not_false, if_true]
    by_cases hg : s.size_ > v.data_.Capacity
    · simp only [hg, if_true, Vector.Swap, RawMemory.Swap]
      exact hs'
    · simp only [hg, if_false]
      exact hs'
  · obtain ⟨e1, e2⟩ := Vector.Reserve_shape E v c
    show (v.Reserve E c).size_ ≤ (v.Reserve E c).data_.capacity_
    omega
  · obtain ⟨e1, e2⟩ := Vector.Resize_shape E v n
    show (v.Resize E n).size_ ≤ (v.Resize E n).data_.capacity_
    rw [e1, e2]
    split <;> omega
  · obtain ⟨r, v', e1, -, e3⟩ := Vector.EmplaceBack_shape E v a
    exact ⟨r, v', e1, by simp [Vector.PushBack, e1], e3⟩
  · intro _
    obtain ⟨r, v', e1, -, e3⟩ := Vector.Emplace_shape E v i a a
    exact ⟨r, v', e1, e1, e3⟩
  · intro _
    obtain ⟨r, v', e1, -, e3⟩ := Vector.Emplace_shape E v i a b
    exact ⟨r, v', e1, e3⟩
  · intro hpos
    obtain ⟨v', e1, -, e3⟩ := Vector.PopBack_shape v hv' hpos
    exact ⟨v', e1, e3⟩
  · intro hi
    obtain ⟨r, v', e1, -, e3⟩ := Vector.Erase_shape E v i hv' hi
    exact ⟨r, v', e1, e3⟩
  · obtain ⟨e1, e2⟩ := Vector.Reserve_wrapping_shape w sizeof_T E v c
    show (v.Reserve_wrapping w sizeof_T E c).size_ ≤
      (v.Reserve_wrapping w sizeof_T E c).data_.capacity_
    omega
  · obtain ⟨e1, e2⟩ := Vector.Resize_wrapping_shape w sizeof_T E v n
    show (v.Resize_wrapping w sizeof_T E n).size_ ≤
      (v.Resize_wrapping w sizeof_T E n).data_.capacity_
    rw [e1, e2]
    split <;> omega

/-- The constructors and operations on the vectors `[1, 2, 3]` (capacity 4) and
`[7]` (capacity 1). -/
theorem Vector.invariant_preserved_witness :
    vec_1_2_3.Size ≤ vec_1_2_3.Capacity ∧ vec_7.Size ≤ vec_7.Capacity ∧
      ((Vector.defaultCtor : Vector Int).Size ≤ (Vector.defaultCtor : Vector Int).Capacity ∧
      (Vector.ofSize intElem 2).Size ≤ (Vector.ofSize intElem 2).Capacity ∧
      (Vector.copyCtor vec_7).1.Size ≤ (Vector.copyCtor vec_7).1.Capacity ∧
      (Vector.copyCtor vec_7).2.Size ≤ (Vector.copyCtor vec_7).2.Capacity ∧
      (Vector.moveCtor vec_7).1.Size ≤ (Vector.moveCtor vec_7).1.Capacity ∧
      (Vector.moveCtor vec_7).2.Size ≤ (Vector.moveCtor vec_7).2.Capacity ∧
      (vec_1_2_3.copyAssign vec_7 false).1.Size ≤
        (vec_1_2_3.copyAssign vec_7 false).1.Capacity ∧
      (vec_1_2_3.copyAssign vec_7 false).2.Size ≤
        (vec_1_2_3.copyAssign vec_7 false).2.Capacity ∧
      (vec_1_2_3.copyAssign vec_1_2_3 true).1.Size ≤
        (vec_1_2_3.copyAssign vec_1_2_3 true).1.Capacity ∧
      (vec_1_2_3.moveAssign vec_7).1.Size ≤ (vec_1_2_3.moveAssign vec_7).1.Capacity ∧
      (vec_1_2_3.moveAssign vec_7).2.Size ≤ (vec_1_2_3.moveAssign vec_7).2.Capacity ∧
      (vec_1_2_3.Swap vec_7).1.Size ≤ (vec_1_2_3.Swap vec_7).1.Capacity ∧
      (vec_1_2_3.Swap vec_7).2.Size ≤ (vec_1_2_3.Swap vec_7).2.Capacity ∧
      (vec_1_2_3.Reserve intElem 10).Size ≤ (vec_1_2_3.Reserve intElem 10).Capacity ∧
      (vec_1_2_3.Resize intElem 2).Size ≤ (vec_1_2_3.Resize intElem 2).Capacity ∧
      (∃ r v', vec_1_2_3.EmplaceBack intElem 5 = some (r, v') ∧
        vec_1_2_3.PushBack intElem 5 = some v' ∧ v'.Size ≤ v'.Capacity) ∧
      (1 ≤ vec_1_2_3.Size →
        ∃ r v', vec_1_2_3.Emplace intElem ((1 : Nat) : Int) 5 5 = some (r, v') ∧
          vec_1_2_3.Insert intElem ((1 : Nat) : Int) 5 = some (r, v') ∧
          v'.Size ≤ v'.Capacity) ∧
      (1 ≤ vec_1_2_3.Size →
        ∃ r v', vec_1_2_3.Emplace intElem ((1 : Nat) : Int) 5 6 = some (r, v') ∧
          v'.Size ≤ v'.Capacity) ∧
      (0 < vec_1_2_3.Size → ∃ v', vec_1_2_3.PopBack = some v' ∧ v'.Size ≤ v'.Capacity) ∧
      (1 < vec_1_2_3.Size → ∃ r v', vec_1_2_3.Erase intElem ((1 : Nat) : Int) = some (r, v') ∧
        v'.Size ≤ v'.Capacity) ∧
      (vec_1_2_3.Reserve_wrapping 64 8 intElem 10).Size ≤
        (vec_1_2_3.Reserve_wrapping 64 8 intElem 10).Capacity ∧
      (vec_1_2_3.Resize_wrapping 64 8 intElem 2).Size ≤
        (vec_1_2_3.Resize_wrapping 64 8 intElem 2).Capacity) :=
  ⟨by decide, by decide,
    Vector.invariant_preserved intElem vec_1_2_3 vec_7 5 6 2 10 1 64 8 (by decide) (by decide)⟩

/-! ## Element access -/

/-- Claim C18: for a vector holding `xs` (so `size ≤ capacity`) and an index
`i < size`, `operator[]` fails neither its own assertion nor the assertion of
`RawMemory::operator[]`; the returned reference designates slot `i`, which
holds the `i`-th element of `xs`.  An assertion fails exactly when
`i ≥ size`. -/
theorem Vector.index_spec (v : Vector α) (xs : List α) (i : Nat) (h : v.Holds xs) :
    (i < v.Size → v.index i = some i ∧ v.data_.index i = some i ∧
        ∃ x, xs[i]? = some x ∧ v.data_.buffer_.read i = some x) ∧
      (v.index i = none ↔ v.Size ≤ i) := by
  have hr := h.read
  obtain ⟨h1, h2, h3, -⟩ := h
  have hidx : ∀ hi : i < v.size_, v.index i = some i := by
    intro hi
    unfold Vector.index RawMemory.index
    rw [if_pos hi, if_pos (by omega)]
  constructor
  · intro hi
    have hi' : i < v.size_ := hi
    obtain ⟨x, hx⟩ : ∃ x, xs[i]? = some x := by
      rw [List.getElem?_eq_getElem (show i < xs.length by omega)]
      exact ⟨_, rfl⟩
    refine ⟨hidx hi', ?_, x, hx, ?_⟩
    · unfold RawMemory.index
      rw [if_pos (by omega)]
    · rw [hr i hi', hx]
  · constructor
    · intro hnone
      by_contra hlt
      have hi' : i < v.size_ := Nat.lt_of_not_le hlt
      rw [hidx hi'] at hnone
      exact absurd hnone (by simp)
    · intro hge
      have hge' : v.size_ ≤ i := hge
      unfold Vector.index
      rw [if_neg (by omega)]

/-- Reading index 1 of `[1, 2, 3]`. -/
theorem Vector.index_spec_witness :
    vec_1_2_3.Holds [1, 2, 3] ∧
      (1 < vec_1_2_3.Size → vec_1_2_3.index 1 = some 1 ∧ vec_1_2_3.data_.index 1 = some 1 ∧
        ∃ x, ([1, 2, 3] : List Int)[1]? = some x ∧
          vec_1_2_3.data_.buffer_.read 1 = some x) ∧
      (vec_1_2_3.index 1 = none ↔ vec_1_2_3.Size ≤ 1) :=
  ⟨by decide, Vector.index_spec vec_1_2_3 [1, 2, 3] 1 (by decide)⟩

/-! ## Destruction on the exceptional path of `EmplaceBack` -/

/-- Claim C16, evaluated on the code: appending `4` to the full vector
`[1, 2, 3]` of a copy-relocated type whose third constructor call throws.  The
new element `4` and the copy of `1` are constructed, the copy of `2` throws,
and the exception leaves the call with the vector unchanged; the copy of `1`
has been destroyed, the new element `4` has not. -/
theorem Throwing.EmplaceBack_new_element_not_destroyed :
    Throwing.EmplaceBack (loggingElem 3) vec_full 4 [] =
        (Outcome.thrown, vec_full,
          [Event.constructed 4, Event.constructed 1, Event.destroyed 1]) ∧
      Event.constructed 4 ∈ (Throwing.EmplaceBack (loggingElem 3) vec_full 4 []).2.2 ∧
      Event.destroyed 4 ∉ (Throwing.EmplaceBack (loggingElem 3) vec_full 4 []).2.2 := by
  refine ⟨rfl, ?_, ?_⟩ <;> decide

/-! ## The size of the allocation request -/

/-- Claim C19, evaluated on the code: with a 64-bit `size_t` and
`sizeof(T) = 8`, the capacity `2 ^ 61` is positive and representable, and
`RawMemory(2 ^ 61)` requests `2 ^ 61 * 8 mod 2 ^ 64 = 0` bytes, not
`2 ^ 61 * 8`: the product wraps, and the recorded capacity `2 ^ 61` exceeds
the number of element slots allocated, which is `0`. -/
theorem RawMemory.Allocate_bytes_wraps :
    0 < 2 ^ 61 ∧ 2 ^ 61 < 2 ^ 64 ∧
      RawMemory.Allocate_bytes 64 8 (2 ^ 61) = some 0 ∧
      RawMemory.Allocate_bytes 64 8 (2 ^ 61) ≠ some (2 ^ 61 * 8) ∧
      RawMemory.Allocate_slots 64 8 (2 ^ 61) = 0 ∧
      (RawMemory.ofCapacity_wrapping 64 8 (2 ^ 61) : RawMemory Int).capacity_ = 2 ^ 61 ∧
      (RawMemory.ofCapacity_wrapping 64 8 (2 ^ 61) : RawMemory Int).buffer_.length = 0 ∧
      ¬ (RawMemory.ofCapacity_wrapping 64 8 (2 ^ 61) : RawMemory Int).capacity_ ≤
          RawMemory.Allocate_slots 64 8 (2 ^ 61) := by
  have hb : RawMemory.Allocate_bytes 64 8 (2 ^ 61) = some 0 := by decide
  have hsl : RawMemory.Allocate_slots 64 8 (2 ^ 61) = 0 := by decide
  have hlen : (RawMemory.ofCapacity_wrapping 64 8 (2 ^ 61) : RawMemory Int).buffer_.length = 0 := by
    show (RawMemory.Allocate_wrapping 64 8 (2 ^ 61) : Buffer Int).length = 0
    rw [RawMemory.length_Allocate_wrapping, hsl]
  refine ⟨by decide, by decide, hb, ?_, hsl, rfl, hlen, ?_⟩
  · rw [hb]
    decide
  · rw [hsl]
    show ¬ (2 ^ 61 ≤ 0)
    decide

/-- When the product `n * sizeof(T)` does not wrap, `RawMemory(n)` requests
exactly `n * sizeof(T)` bytes and the storage has exactly `n` element slots,
the recorded capacity. -/
theorem RawMemory.Allocate_bytes_exact (w sizeof_T n : Nat) (hn : 0 < n) (hs : 0 < sizeof_T)
    (hfit : n * sizeof_T < 2 ^ w) :
    RawMemory.Allocate_bytes w sizeof_T n = some (n * sizeof_T) ∧
      RawMemory.Allocate_slots w sizeof_T n = n ∧
      (RawMemory.ofCapacity_wrapping w sizeof_T n : RawMemory α).buffer_.length =
        (RawMemory.ofCapacity_wrapping w sizeof_T n : RawMemory α).capacity_ := by
  have hn0 : (n != 0) = true := by simpa using Nat.pos_iff_ne_zero.mp hn
  have hb : RawMemory.Allocate_bytes w sizeof_T n = some (n * sizeof_T) := by
    unfold RawMemory.Allocate_bytes
    rw [if_pos hn0, Nat.mod_eq_of_lt hfit]
  have hsl : RawMemory.Allocate_slots w sizeof_T n = n := by
    unfold RawMemory.Allocate_slots
    rw [hb]
    exact Nat.mul_div_cancel n hs
  refine ⟨hb, hsl, ?_⟩
  show (RawMemory.Allocate_wrapping w sizeof_T n : Buffer α).length = n
  rw [RawMemory.length_Allocate_wrapping, hsl]

end Claims

end MyVector
